import Mathlib

/-!
Verification of a SQLite database-file reader (a Rust implementation that
answers `.dbinfo`, `.tables` and `SELECT COUNT(*) FROM <table>` queries by
decoding the on-disk format directly).

The development shallowly embeds the reader's source:

* byte buffers and files are `List Nat` (each element a byte value `< 256`);
* Rust `i64` values are `Int`, with the two's-complement 64-bit
  representation made explicit (`toInt64`, `toUInt64`, `intAsUsize`) at the
  points where the source relies on wrapping casts or wrapping shifts;
* fallible code is `Except String`; error strings reproduce the source's
  `bail!`/`ensure!` messages, while paths on which the source *aborts*
  (Rust `panic!`, `todo!`, debug-mode arithmetic overflow, slice-index
  out of bounds, `expect` failures) are modelled as errors whose message
  starts with `"panic: "` or `"todo: "` — these are crashes, not values the
  source could ever hand to a caller;
* Rust `String` values are their UTF-8 byte sequences (`List Nat`); the
  comparisons performed by the source (`==`, `starts_with`) are byte-wise
  on UTF-8 data, so this is faithful; `trim` is modelled for ASCII
  whitespace (the names the walker handles are ASCII).

Definitions mirror the source files `varint.rs`, `btree_page.rs` and
`main.rs`; names follow the source where Lean permits.
-/

/-- Interpret a 64-bit unsigned representation (a `Nat` below `2 ^ 64`) as a
two's-complement signed 64-bit value, i.e. as Rust `i64`. -/
def toInt64 (u : Nat) : Int :=
  if u < 2 ^ 63 then (u : Int) else (u : Int) - 2 ^ 64

/-- The 64-bit unsigned representation of a signed value: Rust `as u64`
(wrapping) applied to an `i64`. -/
def toUInt64 (v : Int) : Nat :=
  (v % (2 ^ 64 : Int)).toNat

/-- Rust `as usize` on an `i64` (64-bit target): wraps modulo `2 ^ 64`. -/
def intAsUsize (v : Int) : Nat :=
  (v % (2 ^ 64 : Int)).toNat

/-- Rust `i8::from(byte)` reinterpretation of one byte. -/
def toI8 (b : Nat) : Int :=
  if b < 2 ^ 7 then (b : Int) else (b : Int) - 2 ^ 8

/-- Signed interpretation of a 16-bit big-endian representation. -/
def toI16 (u : Nat) : Int :=
  if u < 2 ^ 15 then (u : Int) else (u : Int) - 2 ^ 16

/-- Signed interpretation of a 32-bit representation. -/
def toI32 (u : Nat) : Int :=
  if u < 2 ^ 31 then (u : Int) else (u : Int) - 2 ^ 32

/-- Big-endian 16-bit value from two bytes (`u16::from_be_bytes`). -/
def u16be (a b : Nat) : Nat := 256 * a + b

/-- Big-endian 32-bit value from four bytes (`u32::from_be_bytes`). -/
def u32be (a b c d : Nat) : Nat := ((a * 256 + b) * 256 + c) * 256 + d

/-! ## Varint decoder (`varint.rs`)

The source's `Varint::parse` iterates over at most 9 bytes, accumulating
7 bits per byte for the first 8 bytes (stopping at the first byte whose
high bit is clear) and all 8 bits of a 9th byte.  The Rust accumulator is
an `i64` updated with `(varint << 7) | low7` — a wrapping shift on the
64-bit two's-complement representation — so the loop below tracks the
unsigned 64-bit representation and reduces modulo `2 ^ 64` at each shift,
exactly as the hardware does. -/

/-- The loop of `Varint::parse`: remaining bytes, accumulator (unsigned
64-bit representation), iteration index `i`, bytes read so far. -/
def varintLoop : List Nat → Nat → Nat → Nat → Nat × Nat
  | [], acc, _, read => (acc, read)
  | b :: rest, acc, i, read =>
    if i < 8 then
      let acc2 := ((acc <<< 7) % 2 ^ 64) ||| (b &&& 127)
      if b < 128 then (acc2, read + 1)
      else varintLoop rest acc2 (i + 1) (read + 1)
    else (((acc <<< 8) % 2 ^ 64) ||| (b &&& 255), read + 1)

/-- `Varint::parse`: returns the decoded signed 64-bit value and the number
of bytes consumed.  The function is total — the source has no error path
here; a slice that ends while continuation bits are still set simply stops
the iterator and the partial accumulator is returned. -/
def Varint.parse (bytes : List Nat) : Int × Nat :=
  (toInt64 (varintLoop bytes 0 0 0).1, (varintLoop bytes 0 0 0).2)

/-- Modelled from the spec: the canonical SQLite varint *encoder* for an
unsigned 64-bit representation.  The source repository contains only the
decoder; the round-trip property of spec §8 refers to "the canonical varint
scheme" of §4.1 (7 payload bits per byte, high bit = continuation, a full
8-bit 9th byte), which this definition transcribes.  The encoding is
minimal-length: `k ≤ 8` bytes carry `7k` bits, 9 bytes carry `56 + 8`
bits. -/
def encodeVarint (u : Nat) : List Nat :=
  if u < 2 ^ 7 then [u]
  else if u < 2 ^ 14 then
    [u / 2 ^ 7 + 128, u % 128]
  else if u < 2 ^ 21 then
    [u / 2 ^ 14 + 128, u / 2 ^ 7 % 128 + 128, u % 128]
  else if u < 2 ^ 28 then
    [u / 2 ^ 21 + 128, u / 2 ^ 14 % 128 + 128, u / 2 ^ 7 % 128 + 128, u % 128]
  else if u < 2 ^ 35 then
    [u / 2 ^ 28 + 128, u / 2 ^ 21 % 128 + 128, u / 2 ^ 14 % 128 + 128,
     u / 2 ^ 7 % 128 + 128, u % 128]
  else if u < 2 ^ 42 then
    [u / 2 ^ 35 + 128, u / 2 ^ 28 % 128 + 128, u / 2 ^ 21 % 128 + 128,
     u / 2 ^ 14 % 128 + 128, u / 2 ^ 7 % 128 + 128, u % 128]
  else if u < 2 ^ 49 then
    [u / 2 ^ 42 + 128, u / 2 ^ 35 % 128 + 128, u / 2 ^ 28 % 128 + 128,
     u / 2 ^ 21 % 128 + 128, u / 2 ^ 14 % 128 + 128, u / 2 ^ 7 % 128 + 128,
     u % 128]
  else if u < 2 ^ 56 then
    [u / 2 ^ 49 + 128, u / 2 ^ 42 % 128 + 128, u / 2 ^ 35 % 128 + 128,
     u / 2 ^ 28 % 128 + 128, u / 2 ^ 21 % 128 + 128, u / 2 ^ 14 % 128 + 128,
     u / 2 ^ 7 % 128 + 128, u % 128]
  else
    [u / 2 ^ 57 % 128 + 128, u / 2 ^ 50 % 128 + 128, u / 2 ^ 43 % 128 + 128,
     u / 2 ^ 36 % 128 + 128, u / 2 ^ 29 % 128 + 128, u / 2 ^ 22 % 128 + 128,
     u / 2 ^ 15 % 128 + 128, u / 2 ^ 8 % 128 + 128, u % 256]

/-! ### Bitwise-to-arithmetic bridges -/

theorem and127_eq_mod (y : Nat) : y &&& 127 = y % 128 :=
  Nat.and_pow_two_sub_one_eq_mod y 7

theorem and255_eq_mod (y : Nat) : y &&& 255 = y % 256 :=
  Nat.and_pow_two_sub_one_eq_mod y 8

theorem mulPow_or_eq_add (a x k : Nat) (h : x < 2 ^ k) :
    (a * 2 ^ k) ||| x = a * 2 ^ k + x := by
  rw [Nat.mul_comm a (2 ^ k)]
  apply Nat.eq_of_testBit_eq
  intro j
  rw [Nat.testBit_or, Nat.testBit_mul_pow_two_add a h]
  rcases Nat.lt_or_ge j k with hj | hj
  · rw [if_pos hj, Nat.testBit_mul_pow_two]
    simp [Nat.not_le_of_lt hj]
  · rw [if_neg (Nat.not_lt_of_ge hj), Nat.testBit_mul_pow_two,
      Nat.testBit_lt_two_pow (Nat.lt_of_lt_of_le h (Nat.pow_le_pow_right (by norm_num) hj))]
    simp [hj]

/-- One 7-bit accumulation step of the varint loop, in arithmetic form. -/
theorem varintStep_eq (acc b : Nat) (hacc : acc < 2 ^ 56) :
    ((acc <<< 7) % 2 ^ 64) ||| (b &&& 127) = acc * 128 + b % 128 := by
  rw [Nat.shiftLeft_eq, and127_eq_mod]
  have h1 : acc * 2 ^ 7 < 2 ^ 64 := by
    have := Nat.mul_lt_mul_of_lt_of_le hacc (Nat.le_refl (2 ^ 7)) (by norm_num)
    omega
  rw [Nat.mod_eq_of_lt h1, mulPow_or_eq_add acc (b % 128) 7 (by omega)]
  norm_num

/-- The 9th-byte accumulation step, in arithmetic form. -/
theorem varintNinth_eq (acc b : Nat) (hacc : acc < 2 ^ 56) :
    ((acc <<< 8) % 2 ^ 64) ||| (b &&& 255) = acc * 256 + b % 256 := by
  rw [Nat.shiftLeft_eq, and255_eq_mod]
  have h1 : acc * 2 ^ 8 < 2 ^ 64 := by
    have := Nat.mul_lt_mul_of_lt_of_le hacc (Nat.le_refl (2 ^ 8)) (by norm_num)
    omega
  rw [Nat.mod_eq_of_lt h1, mulPow_or_eq_add acc (b % 256) 8 (by omega)]
  norm_num

theorem varintLoop_cont (b : Nat) (rest : List Nat) (acc i read : Nat)
    (hi : i < 8) (hb : 128 ≤ b) (hacc : acc < 2 ^ 56) :
    varintLoop (b :: rest) acc i read
      = varintLoop rest (acc * 128 + b % 128) (i + 1) (read + 1) := by
  conv_lhs => unfold varintLoop
  rw [if_pos hi, if_neg (by omega)]
  simp only [varintStep_eq acc b hacc]

theorem varintLoop_stop (b : Nat) (rest : List Nat) (acc i read : Nat)
    (hi : i < 8) (hb : b < 128) (hacc : acc < 2 ^ 56) :
    varintLoop (b :: rest) acc i read = (acc * 128 + b, read + 1) := by
  conv_lhs => unfold varintLoop
  rw [if_pos hi, if_pos hb]
  simp only [varintStep_eq acc b hacc]
  rw [Nat.mod_eq_of_lt hb]

theorem varintLoop_ninth (b : Nat) (rest : List Nat) (acc read : Nat)
    (hacc : acc < 2 ^ 56) :
    varintLoop (b :: rest) acc 8 read = (acc * 256 + b % 256, read + 1) := by
  conv_lhs => unfold varintLoop
  rw [if_neg (by omega)]
  simp only [varintNinth_eq acc b hacc]

/-- After consuming one continuation byte holding the digit
`u / 2 ^ (s + 7) % 128`, an accumulator equal to `u / 2 ^ (s + 14)`
becomes `u / 2 ^ (s + 7)`.  These two rewrites keep the accumulator in
the closed form `u / 2 ^ s` throughout `varint_decode_encode`. -/
theorem varintDigit_eq (u s t : Nat) (hst : t = s + 7) :
    u / 2 ^ t * 128 + (u / 2 ^ s % 128 + 128) % 128 = u / 2 ^ s := by
  subst hst
  have h1 : u / 2 ^ (s + 7) = u / 2 ^ s / 128 := by
    rw [Nat.pow_add, Nat.div_div_eq_div_mul]
  rw [h1]
  omega

/-- Decoding the canonical encoding of any unsigned 64-bit representation
recovers the representation and consumes the whole encoding. -/
theorem varint_decode_encode (u : Nat) (hu : u < 2 ^ 64) :
    varintLoop (encodeVarint u) 0 0 0 = (u, (encodeVarint u).length) := by
  by_cases h7 : u < 2 ^ 7
  · unfold encodeVarint
    rw [if_pos h7]
    rw [varintLoop_stop _ _ _ _ _ (by norm_num) h7 (by norm_num)]
    simp
  by_cases h14 : u < 2 ^ 14
  · unfold encodeVarint
    rw [if_neg h7, if_pos h14]
    rw [varintLoop_cont _ _ _ _ _ (by norm_num) (by omega) (by norm_num)]
    rw [show 0 * 128 + (u / 2 ^ 7 + 128) % 128 = u / 2 ^ 7 by omega]
    rw [varintLoop_stop _ _ _ _ _ (by norm_num) (by omega) (by omega)]
    refine Prod.ext ?_ rfl
    show _ = u
    omega
  by_cases h21 : u < 2 ^ 21
  · unfold encodeVarint
    rw [if_neg h7, if_neg h14, if_pos h21]
    rw [varintLoop_cont _ _ _ _ _ (by norm_num) (by omega) (by norm_num)]
    rw [show 0 * 128 + (u / 2 ^ 14 + 128) % 128 = u / 2 ^ 14 by omega]
    rw [varintLoop_cont _ _ _ _ _ (by norm_num) (by omega) (by omega)]
    rw [varintDigit_eq u 7 14 (by norm_num)]
    rw [varintLoop_stop _ _ _ _ _ (by norm_num) (by omega) (by omega)]
    refine Prod.ext ?_ rfl
    show _ = u
    omega
  by_cases h28 : u < 2 ^ 28
  · unfold encodeVarint
    rw [if_neg h7, if_neg h14, if_neg h21, if_pos h28]
    rw [varintLoop_cont _ _ _ _ _ (by norm_num) (by omega) (by norm_num)]
    rw [show 0 * 128 + (u / 2 ^ 21 + 128) % 128 = u / 2 ^ 21 by omega]
    rw [varintLoop_cont _ _ _ _ _ (by norm_num) (by omega) (by omega)]
    rw [varintDigit_eq u 14 21 (by norm_num)]
    rw [varintLoop_cont _ _ _ _ _ (by norm_num) (by omega) (by omega)]
    rw [varintDigit_eq u 7 14 (by norm_num)]
    rw [varintLoop_stop _ _ _ _ _ (by norm_num) (by omega) (by omega)]
    refine Prod.ext ?_ rfl
    show _ = u
    omega
  by_cases h35 : u < 2 ^ 35
  · unfold encodeVarint
    rw [if_neg h7, if_neg h14, if_neg h21, if_neg h28, if_pos h35]
    rw [varintLoop_cont _ _ _ _ _ (by norm_num) (by omega) (by norm_num)]
    rw [show 0 * 128 + (u / 2 ^ 28 + 128) % 128 = u / 2 ^ 28 by omega]
    rw [varintLoop_cont _ _ _ _ _ (by norm_num) (by omega) (by omega)]
    rw [varintDigit_eq u 21 28 (by norm_num)]
    rw [varintLoop_cont _ _ _ _ _ (by norm_num) (by omega) (by omega)]
    rw [varintDigit_eq u 14 21 (by norm_num)]
    rw [varintLoop_cont _ _ _ _ _ (by norm_num) (by omega) (by omega)]
    rw [varintDigit_eq u 7 14 (by norm_num)]
    rw [varintLoop_stop _ _ _ _ _ (by norm_num) (by omega) (by omega)]
    refine Prod.ext ?_ rfl
    show _ = u
    omega
  by_cases h42 : u < 2 ^ 42
  · unfold encodeVarint
    rw [if_neg h7, if_neg h14, if_neg h21, if_neg h28, if_neg h35, if_pos h42]
    rw [varintLoop_cont _ _ _ _ _ (by norm_num) (by omega) (by norm_num)]
    rw [show 0 * 128 + (u / 2 ^ 35 + 128) % 128 = u / 2 ^ 35 by omega]
    rw [varintLoop_cont _ _ _ _ _ (by norm_num) (by omega) (by omega)]
    rw [varintDigit_eq u 28 35 (by norm_num)]
    rw [varintLoop_cont _ _ _ _ _ (by norm_num) (by omega) (by omega)]
    rw [varintDigit_eq u 21 28 (by norm_num)]
    rw [varintLoop_cont _ _ _ _ _ (by norm_num) (by omega) (by omega)]
    rw [varintDigit_eq u 14 21 (by norm_num)]
    rw [varintLoop_cont _ _ _ _ _ (by norm_num) (by omega) (by omega)]
    rw [varintDigit_eq u 7 14 (by norm_num)]
    rw [varintLoop_stop _ _ _ _ _ (by norm_num) (by omega) (by omega)]
    refine Prod.ext ?_ rfl
    show _ = u
    omega
  by_cases h49 : u < 2 ^ 49
  · unfold encodeVarint
    rw [if_neg h7, if_neg h14, if_neg h21, if_neg h28, if_neg h35, if_neg h42,
      if_pos h49]
    rw [varintLoop_cont _ _ _ _ _ (by norm_num) (by omega) (by norm_num)]
    rw [show 0 * 128 + (u / 2 ^ 42 + 128) % 128 = u / 2 ^ 42 by omega]
    rw [varintLoop_cont _ _ _ _ _ (by norm_num) (by omega) (by omega)]
    rw [varintDigit_eq u 35 42 (by norm_num)]
    rw [varintLoop_cont _ _ _ _ _ (by norm_num) (by omega) (by omega)]
    rw [varintDigit_eq u 28 35 (by norm_num)]
    rw [varintLoop_cont _ _ _ _ _ (by norm_num) (by omega) (by omega)]
    rw [varintDigit_eq u 21 28 (by norm_num)]
    rw [varintLoop_cont _ _ _ _ _ (by norm_num) (by omega) (by omega)]
    rw [varintDigit_eq u 14 21 (by norm_num)]
    rw [varintLoop_cont _ _ _ _ _ (by norm_num) (by omega) (by omega)]
    rw [varintDigit_eq u 7 14 (by norm_num)]
    rw [varintLoop_stop _ _ _ _ _ (by norm_num) (by omega) (by omega)]
    refine Prod.ext ?_ rfl
    show _ = u
    omega
  by_cases h56 : u < 2 ^ 56
  · unfold encodeVarint
    rw [if_neg h7, if_neg h14, if_neg h21, if_neg h28, if_neg h35, if_neg h42,
      if_neg h49, if_pos h56]
    rw [varintLoop_cont _ _ _ _ _ (by norm_num) (by omega) (by norm_num)]
    rw [show 0 * 128 + (u / 2 ^ 49 + 128) % 128 = u / 2 ^ 49 by omega]
    rw [varintLoop_cont _ _ _ _ _ (by norm_num) (by omega) (by omega)]
    rw [varintDigit_eq u 42 49 (by norm_num)]
    rw [varintLoop_cont _ _ _ _ _ (by norm_num) (by omega) (by omega)]
    rw [varintDigit_eq u 35 42 (by norm_num)]
    rw [varintLoop_cont _ _ _ _ _ (by norm_num) (by omega) (by omega)]
    rw [varintDigit_eq u 28 35 (by norm_num)]
    rw [varintLoop_cont _ _ _ _ _ (by norm_num) (by omega) (by omega)]
    rw [varintDigit_eq u 21 28 (by norm_num)]
    rw [varintLoop_cont _ _ _ _ _ (by norm_num) (by omega) (by omega)]
    rw [varintDigit_eq u 14 21 (by norm_num)]
    rw [varintLoop_cont _ _ _ _ _ (by norm_num) (by omega) (by omega)]
    rw [varintDigit_eq u 7 14 (by norm_num)]
    rw [varintLoop_stop _ _ _ _ _ (by norm_num) (by omega) (by omega)]
    refine Prod.ext ?_ rfl
    show _ = u
    omega
  · unfold encodeVarint
    rw [if_neg h7, if_neg h14, if_neg h21, if_neg h28, if_neg h35, if_neg h42,
      if_neg h49, if_neg h56]
    rw [varintLoop_cont _ _ _ _ _ (by norm_num) (by omega) (by norm_num)]
    rw [show 0 * 128 + (u / 2 ^ 57 % 128 + 128) % 128 = u / 2 ^ 57 by omega]
    rw [varintLoop_cont _ _ _ _ _ (by norm_num) (by omega) (by omega)]
    rw [varintDigit_eq u 50 57 (by norm_num)]
    rw [varintLoop_cont _ _ _ _ _ (by norm_num) (by omega) (by omega)]
    rw [varintDigit_eq u 43 50 (by norm_num)]
    rw [varintLoop_cont _ _ _ _ _ (by norm_num) (by omega) (by omega)]
    rw [varintDigit_eq u 36 43 (by norm_num)]
    rw [varintLoop_cont _ _ _ _ _ (by norm_num) (by omega) (by omega)]
    rw [varintDigit_eq u 29 36 (by norm_num)]
    rw [varintLoop_cont _ _ _ _ _ (by norm_num) (by omega) (by omega)]
    rw [varintDigit_eq u 22 29 (by norm_num)]
    rw [varintLoop_cont _ _ _ _ _ (by norm_num) (by omega) (by omega)]
    rw [varintDigit_eq u 15 22 (by norm_num)]
    rw [varintLoop_cont _ _ _ _ _ (by norm_num) (by omega) (by omega)]
    rw [varintDigit_eq u 8 15 (by norm_num)]
    rw [varintLoop_ninth _ _ _ _ (by omega)]
    refine Prod.ext ?_ rfl
    show _ = u
    omega

/-- C2: for every signed 64-bit value, `Varint::parse` applied to the
canonical varint encoding of the value's two's-complement representation
returns exactly that value, and reports a `bytes_consumed` equal to the
canonical encoding's length. -/
theorem c2_varint_roundtrip (v : Int) (h1 : -(2 ^ 63) ≤ v) (h2 : v < 2 ^ 63) :
    Varint.parse (encodeVarint (toUInt64 v)) = (v, (encodeVarint (toUInt64 v)).length) := by
  have hu : toUInt64 v < 2 ^ 64 := by
    unfold toUInt64
    omega
  unfold Varint.parse
  rw [varint_decode_encode (toUInt64 v) hu]
  have : toInt64 (toUInt64 v) = v := by
    unfold toInt64 toUInt64
    split <;> omega
  rw [this]

theorem c2_varint_roundtrip_witness :
    Varint.parse (encodeVarint (toUInt64 300)) = (300, (encodeVarint (toUInt64 300)).length) :=
  c2_varint_roundtrip 300 (by norm_num) (by norm_num)

/-! ### C6: bounds on `bytes_consumed`, and behaviour on truncated input -/

theorem varintLoop_read_le (l : List Nat) :
    ∀ acc i read, i ≤ 8 → (varintLoop l acc i read).2 ≤ read + (9 - i) := by
  induction l with
  | nil =>
    intro acc i read _
    unfold varintLoop
    omega
  | cons b rest ih =>
    intro acc i read hi
    unfold varintLoop
    rcases Nat.lt_or_ge i 8 with h8 | h8
    · rw [if_pos h8]
      by_cases hb : b < 128
      · rw [if_pos hb]
        omega
      · rw [if_neg hb]
        have := ih (((acc <<< 7) % 2 ^ 64) ||| (b &&& 127)) (i + 1) (read + 1) (by omega)
        omega
    · rw [if_neg (by omega)]
      omega

theorem varintLoop_read_ge (l : List Nat) :
    ∀ acc i read, read ≤ (varintLoop l acc i read).2 := by
  induction l with
  | nil =>
    intro acc i read
    unfold varintLoop
    omega
  | cons b rest ih =>
    intro acc i read
    unfold varintLoop
    rcases Nat.lt_or_ge i 8 with h8 | h8
    · rw [if_pos h8]
      by_cases hb : b < 128
      · rw [if_pos hb]
        omega
      · rw [if_neg hb]
        have := ih (((acc <<< 7) % 2 ^ 64) ||| (b &&& 127)) (i + 1) (read + 1)
        omega
    · rw [if_neg (by omega)]
      omega

theorem varintLoop_read_ge_one (b : Nat) (rest : List Nat) (acc i read : Nat) :
    read + 1 ≤ (varintLoop (b :: rest) acc i read).2 := by
  unfold varintLoop
  rcases Nat.lt_or_ge i 8 with h8 | h8
  · rw [if_pos h8]
    by_cases hb : b < 128
    · rw [if_pos hb]
    · rw [if_neg hb]
      exact varintLoop_read_ge rest _ (i + 1) (read + 1)
  · rw [if_neg (by omega)]

theorem varintLoop_allCont (l : List Nat) :
    ∀ acc i read, (∀ b ∈ l, 128 ≤ b) → i + l.length ≤ 8 →
      (varintLoop l acc i read).2 = read + l.length := by
  induction l with
  | nil =>
    intro acc i read _ _
    unfold varintLoop
    simp
  | cons b rest ih =>
    intro acc i read hcont hlen
    unfold varintLoop
    rw [if_pos (by simp at hlen; omega)]
    rw [if_neg (by have := hcont b (by simp); omega)]
    have := ih (((acc <<< 7) % 2 ^ 64) ||| (b &&& 127)) (i + 1) (read + 1)
      (fun x hx => hcont x (by simp [hx])) (by simp at hlen ⊢; omega)
    simp at this ⊢
    omega

/-- C6 counterexample: parsing the malformed, truncated input `[0x80]`
(one byte with its continuation bit set and nothing after it) does not
raise any error — `Varint::parse` has no error channel at all — and
returns exactly the same value/length pair as parsing the *well-formed*
input `[0x00]`: the truncated value is returned silently. -/
theorem c6_counterexample :
    Varint.parse [128] = ((0 : Int), 1) ∧ Varint.parse [0] = ((0 : Int), 1) := by
  constructor <;> rfl

/-- C6 (amended): for every non-empty byte slice, `Varint::parse` returns
`bytes_consumed ∈ [1, 9]`; it never reads out of bounds, but on a
truncated input shorter than nine bytes in which every byte has its
continuation bit set it raises no error — the return type has no error
channel — and silently consumes the entire input. -/
theorem c6_varint_bounds :
    (∀ l : List Nat, l ≠ [] →
      1 ≤ (Varint.parse l).2 ∧ (Varint.parse l).2 ≤ 9) ∧
    (∀ l : List Nat, l ≠ [] → l.length < 9 → (∀ b ∈ l, 128 ≤ b) →
      (Varint.parse l).2 = l.length) := by
  constructor
  · intro l hl
    unfold Varint.parse
    constructor
    · match l, hl with
      | b :: rest, _ =>
        exact varintLoop_read_ge_one b rest 0 0 0
    · have := varintLoop_read_le l 0 0 0 (by norm_num)
      simpa using this
  · intro l hl hlen hcont
    unfold Varint.parse
    have := varintLoop_allCont l 0 0 0 hcont (by omega)
    simpa using this

theorem c6_varint_bounds_witness :
    (1 ≤ (Varint.parse [128, 128]).2 ∧ (Varint.parse [128, 128]).2 ≤ 9) ∧
    (Varint.parse [128, 128]).2 = 2 := by
  refine ⟨c6_varint_bounds.1 [128, 128] (by simp), ?_⟩
  have := c6_varint_bounds.2 [128, 128] (by simp) (by simp) (by decide)
  simpa using this

/-! ## Serial types and record values (`btree_page.rs`)

Rust `String` values are modelled as their UTF-8 byte sequences
(`List Nat`); `String::from_utf8` validates, so the model carries a UTF-8
validator and the text case fails (the source `expect`-panics) on invalid
bytes.  `f64` column values are kept as their raw 64-bit big-endian bit
pattern — no claim touches floating-point semantics. -/

/-- UTF-8 continuation byte test: `0x80 ≤ b ≤ 0xBF`. -/
def utf8Cont (b : Nat) : Bool := 128 ≤ b && b ≤ 191

/-- UTF-8 validity of a byte sequence, as checked by Rust
`String::from_utf8` (RFC 3629: proper continuation bytes, no overlong
forms, no surrogates, maximum U+10FFFF). -/
def utf8Valid : List Nat → Bool
  | [] => true
  | b :: rest =>
    if b ≤ 127 then utf8Valid rest
    else if 194 ≤ b && b ≤ 223 then
      match rest with
      | c1 :: rest2 => utf8Cont c1 && utf8Valid rest2
      | [] => false
    else if b == 224 then
      match rest with
      | c1 :: c2 :: rest2 => (160 ≤ c1 && c1 ≤ 191) && utf8Cont c2 && utf8Valid rest2
      | _ => false
    else if (225 ≤ b && b ≤ 236) || b == 238 || b == 239 then
      match rest with
      | c1 :: c2 :: rest2 => utf8Cont c1 && utf8Cont c2 && utf8Valid rest2
      | _ => false
    else if b == 237 then
      match rest with
      | c1 :: c2 :: rest2 => (128 ≤ c1 && c1 ≤ 159) && utf8Cont c2 && utf8Valid rest2
      | _ => false
    else if b == 240 then
      match rest with
      | c1 :: c2 :: c3 :: rest2 =>
        (144 ≤ c1 && c1 ≤ 191) && utf8Cont c2 && utf8Cont c3 && utf8Valid rest2
      | _ => false
    else if 241 ≤ b && b ≤ 243 then
      match rest with
      | c1 :: c2 :: c3 :: rest2 =>
        utf8Cont c1 && utf8Cont c2 && utf8Cont c3 && utf8Valid rest2
      | _ => false
    else if b == 244 then
      match rest with
      | c1 :: c2 :: c3 :: rest2 =>
        (128 ≤ c1 && c1 ≤ 143) && utf8Cont c2 && utf8Cont c3 && utf8Valid rest2
      | _ => false
    else false

/-- `SerialType` from `btree_page.rs`.  The `N12AndEven`/`N13AndOdd`
constructors carry the raw varint value `N`, as in the source. -/
inductive SerialType where
  | Null
  | I8
  | I16
  | I24
  | I32
  | I48
  | I64
  | F64
  | Zero
  | One
  | N12AndEven (n : Int)
  | N13AndOdd (n : Int)
deriving DecidableEq, Repr

/-- `SerialType::len` — the byte length implied by a serial type.  Note
the source computes `(n as usize - 12) / 2` resp. `(n as usize - 13) / 2`
with a wrapping `as usize` cast. -/
def SerialType.len : SerialType → Nat
  | .Null => 0
  | .I8 => 1
  | .I16 => 2
  | .I24 => 3
  | .I32 => 4
  | .I48 => 6
  | .I64 => 8
  | .F64 => 8
  | .Zero => 0
  | .One => 0
  | .N12AndEven n => (intAsUsize n - 12) / 2
  | .N13AndOdd n => (intAsUsize n - 13) / 2

/-- `impl From<Varint> for SerialType`.  The source's final arm is
`panic!("Malformed SerialType")`: a crash, modelled as `none` — the
surrounding `Record::parse` has no error channel through which a
recoverable error could reach a caller. -/
def SerialType.fromVarint (v : Int) : Option SerialType :=
  if v = 0 then some .Null
  else if v = 1 then some .I8
  else if v = 2 then some .I16
  else if v = 3 then some .I24
  else if v = 4 then some .I32
  else if v = 5 then some .I48
  else if v = 6 then some .I64
  else if v = 7 then some .F64
  else if v = 8 then some .Zero
  else if v = 9 then some .One
  else if 12 ≤ v ∧ v % 2 = 0 then some (.N12AndEven v)
  else if 13 ≤ v ∧ v % 2 ≠ 0 then some (.N13AndOdd v)
  else none

/-- `RecordValue` from `btree_page.rs`.  Texts are UTF-8 byte sequences;
`F64` keeps the raw 64-bit bit pattern. -/
inductive RecordValue where
  | Null
  | I8 (v : Int)
  | I16 (v : Int)
  | I24 (v : Int)
  | I32 (v : Int)
  | I48 (v : Int)
  | I64 (v : Int)
  | F64 (bits : Nat)
  | Zero
  | One
  | N12AndEven (bytes : List Nat)
  | N13AndOdd (text : List Nat)
deriving DecidableEq, Repr

/-- Error used for every Rust slice-index / `Vec`-index out-of-bounds
abort (a panic, not a recoverable error). -/
def panicOOB : String := "panic: index out of bounds"

/-- Error used for debug-mode unsigned-subtraction overflow (a panic). -/
def panicSub : String := "panic: attempt to subtract with overflow"

/-- Error used for the `panic!("Malformed SerialType")` arm. -/
def panicSerial : String := "panic: Malformed SerialType"

/-- Error used for `String::from_utf8(..).expect(..)` failure (a panic). -/
def panicUtf8 : String := "panic: Should be valid string"

/-- Error used for `Option::expect` failure on a missing right-most
pointer (a panic). -/
def panicRightMost : String := "panic: Right-most pointer should exist in interior page"

/-- Error used for the `panic!("We checked the SerialType")` arms of
`count_rows` (a panic). -/
def panicChecked : String := "panic: We checked the SerialType"

/-- Error used for `todo!()` on index pages (an abort). -/
def todoIndex : String := "todo: index pages"

/-- Model artifact: the source's descriptor loop would iterate forever
when a varint read consumes zero bytes (empty remaining slice); the
fuel-free model reports it as this error. -/
def loopForever : String := "model: nonterminating descriptor loop"

/-- Rust slice indexing `l[i]`: the value, or an out-of-bounds panic. -/
def idx (l : List Nat) (i : Nat) : Except String Nat :=
  match l[i]? with
  | some b => .ok b
  | none => .error panicOOB

/-- `RecordValue::parse`: decode one value of the given serial type from
the slice that `Record::parse` carved out for it; returns the value and
the number of bytes consumed.  The source returns a plain pair and panics
on out-of-bounds or invalid UTF-8; those aborts are `.error` here.  Note
the text arm computes its length as `(n - 12) / 2` exactly as the source
does (for the odd `n` of a well-formed text descriptor this equals
`(n - 13) / 2`). -/
def RecordValue.parse (st : SerialType) (bytes : List Nat) :
    Except String (RecordValue × Nat) :=
  match st with
  | .Null => .ok (.Null, 0)
  | .Zero => .ok (.Zero, 0)
  | .One => .ok (.One, 0)
  | .I8 => do
    let b0 ← idx bytes 0
    .ok (.I8 (toI8 b0), 1)
  | .I16 => do
    let b0 ← idx bytes 0
    let b1 ← idx bytes 1
    .ok (.I16 (toI16 (u16be b0 b1)), 2)
  | .I24 => do
    let b0 ← idx bytes 0
    let b1 ← idx bytes 1
    let b2 ← idx bytes 2
    let pad := if b0 < 128 then 0 else 255
    .ok (.I24 (toI32 (u32be pad b0 b1 b2)), 3)
  | .I32 => do
    let b0 ← idx bytes 0
    let b1 ← idx bytes 1
    let b2 ← idx bytes 2
    let b3 ← idx bytes 3
    .ok (.I32 (toI32 (u32be b0 b1 b2 b3)), 4)
  | .I48 => do
    let b0 ← idx bytes 0
    let b1 ← idx bytes 1
    let b2 ← idx bytes 2
    let b3 ← idx bytes 3
    let b4 ← idx bytes 4
    let b5 ← idx bytes 5
    let pad := if b0 < 128 then 0 else 255
    .ok (.I48 (toInt64 (u16be pad pad * 2 ^ 48 + u16be b0 b1 * 2 ^ 32 + u32be b2 b3 b4 b5)), 6)
  | .I64 => do
    let b0 ← idx bytes 0
    let b1 ← idx bytes 1
    let b2 ← idx bytes 2
    let b3 ← idx bytes 3
    let b4 ← idx bytes 4
    let b5 ← idx bytes 5
    let b6 ← idx bytes 6
    let b7 ← idx bytes 7
    .ok (.I64 (toInt64 (u32be b0 b1 b2 b3 * 2 ^ 32 + u32be b4 b5 b6 b7)), 8)
  | .F64 => do
    let b0 ← idx bytes 0
    let b1 ← idx bytes 1
    let b2 ← idx bytes 2
    let b3 ← idx bytes 3
    let b4 ← idx bytes 4
    let b5 ← idx bytes 5
    let b6 ← idx bytes 6
    let b7 ← idx bytes 7
    .ok (.F64 (u32be b0 b1 b2 b3 * 2 ^ 32 + u32be b4 b5 b6 b7), 8)
  | .N12AndEven n =>
    let len := (intAsUsize n - 12) / 2
    if bytes.length < len then .error panicOOB
    else .ok (.N12AndEven (bytes.take len), len)
  | .N13AndOdd n =>
    let len := (intAsUsize n - 12) / 2
    if bytes.length < len then .error panicOOB
    else if utf8Valid (bytes.take len) then .ok (.N13AndOdd (bytes.take len), len)
    else .error panicUtf8

/-- `Record` from `btree_page.rs`. -/
structure Record where
  header_len : Int
  serial_types : List SerialType
  values : List RecordValue
deriving DecidableEq, Repr

/-- The `while remaining > 0` descriptor loop of `Record::parse`.
Walks descriptor varints starting at offset `pos` until `remaining`
header bytes are consumed.  The source's `remaining -= read` is a
debug-mode panic when `read > remaining`; reading from an empty slice
would loop forever (`read = 0`), reported via `loopForever`.  The first
argument is structural fuel; every iteration consumes at least one
header byte, so fuel equal to the initial `remaining` (as passed by
`Record.parse`) can never run out — the fuel branch is unreachable. -/
def serialTypesLoop (bytes : List Nat) : Nat → Nat → Nat → Except String (List SerialType × Nat)
  | _, pos, 0 => .ok ([], pos)
  | 0, _, _ + 1 => .error loopForever
  | fuel + 1, pos, remaining + 1 =>
    if bytes.length < pos then .error panicOOB
    else
      let r := Varint.parse (bytes.drop pos)
      if r.2 = 0 then .error loopForever
      else if remaining + 1 < r.2 then .error panicSub
      else
        match SerialType.fromVarint r.1 with
        | none => .error panicSerial
        | some st =>
          match serialTypesLoop bytes fuel (pos + r.2) (remaining + 1 - r.2) with
          | .error e => .error e
          | .ok (sts, p) => .ok (st :: sts, p)

/-- The value loop of `Record::parse`: for each serial type, carve out
the slice `bytes[pos .. pos + st.len()]` (a panic when it overruns the
buffer) and decode one `RecordValue`. -/
def valuesLoop (bytes : List Nat) : Nat → List SerialType → Except String (List RecordValue × Nat)
  | pos, [] => .ok ([], pos)
  | pos, st :: rest =>
    if bytes.length < pos + st.len then .error panicOOB
    else
      match RecordValue.parse st ((bytes.drop pos).take st.len) with
      | .error e => .error e
      | .ok (v, read) =>
        match valuesLoop bytes (pos + read) rest with
        | .error e => .error e
        | .ok (vs, p) => .ok (v :: vs, p)

/-- `Record::parse`: header-length varint, then descriptor varints until
`header_len` total header bytes (including the length varint itself) are
consumed, then one value per descriptor.  Returns the record and the
total number of bytes read.  The source ignores its `payload_len`
argument.  `remaining = header_len as usize - read` underflows (panics)
when the header-length value is smaller than the byte length of its own
varint. -/
def Record.parse (bytes : List Nat) (_payloadLen : Nat) : Except String (Record × Nat) :=
  if intAsUsize (Varint.parse bytes).1 < (Varint.parse bytes).2 then .error panicSub
  else
    match serialTypesLoop bytes (intAsUsize (Varint.parse bytes).1 - (Varint.parse bytes).2)
        (Varint.parse bytes).2 (intAsUsize (Varint.parse bytes).1 - (Varint.parse bytes).2) with
    | .error e => .error e
    | .ok (sts, pos) =>
      match valuesLoop bytes pos sts with
      | .error e => .error e
      | .ok (vals, pos2) =>
        .ok ({ header_len := (Varint.parse bytes).1, serial_types := sts, values := vals }, pos2)

/-! ## Claims about the record decoder (C4, C7, C10) -/

theorem exceptBind_ok {α β : Type} (x : Except String α) (f : α → Except String β) (b : β) :
    (x >>= f) = .ok b ↔ ∃ a, x = .ok a ∧ f a = .ok b := by
  cases x with
  | error e =>
    simp only [Bind.bind, Except.bind]
    constructor
    · intro h
      exact absurd h (by simp)
    · rintro ⟨a, ha, _⟩
      exact absurd ha (by simp)
  | ok a =>
    simp only [Bind.bind, Except.bind]
    constructor
    · intro h
      exact ⟨a, rfl, h⟩
    · rintro ⟨a2, ha, hf⟩
      cases ha
      exact hf

/-- A serial type is valid when it lies in the image of
`SerialType.fromVarint`: the variable-length constructors carry an even
`n ≥ 12` (blob) resp. an odd `n ≥ 13` (text). -/
def SerialType.wf : SerialType → Prop
  | .N12AndEven n => 12 ≤ n ∧ n % 2 = 0
  | .N13AndOdd n => 13 ≤ n ∧ n % 2 = 1
  | _ => True

theorem valuesLoop_length (bytes : List Nat) :
    ∀ sts pos vs p, valuesLoop bytes pos sts = .ok (vs, p) →
      vs.length = sts.length := by
  intro sts
  induction sts with
  | nil =>
    intro pos vs p h
    simp [valuesLoop] at h
    simp [← h.1]
  | cons st rest ih =>
    intro pos vs p h
    unfold valuesLoop at h
    split at h
    · exact absurd h (by simp)
    · split at h
      · exact absurd h (by simp)
      · split at h
        · exact absurd h (by simp)
        · rename_i v read _ vs2 p2 hrec
          simp at h
          rw [← h.1]
          simp [ih _ _ _ hrec]

/-- C4: decoding a record produces one value per descriptor, each value
consumes exactly the byte length implied by its (valid) serial type —
with the length mapping giving blob length 0 for descriptor 12, text
length 0 for 13, blob length 1 for 14 and text length 7 for 27 — and the
3-byte and 6-byte integers are sign-extended from their top bit. -/
theorem c4_record_value_lengths :
    (SerialType.fromVarint 12 = some (.N12AndEven 12) ∧ (SerialType.N12AndEven 12).len = 0 ∧
     SerialType.fromVarint 13 = some (.N13AndOdd 13) ∧ (SerialType.N13AndOdd 13).len = 0 ∧
     SerialType.fromVarint 14 = some (.N12AndEven 14) ∧ (SerialType.N12AndEven 14).len = 1 ∧
     SerialType.fromVarint 27 = some (.N13AndOdd 27) ∧ (SerialType.N13AndOdd 27).len = 7) ∧
    (∀ (st : SerialType) (bytes : List Nat) (v : RecordValue) (k : Nat),
      st.wf → RecordValue.parse st bytes = .ok (v, k) → k = st.len) ∧
    (∀ (bytes : List Nat) (pl : Nat) (r : Record) (n : Nat),
      Record.parse bytes pl = .ok (r, n) → r.values.length = r.serial_types.length) ∧
    (∀ b0 b1 b2 : Nat, b0 < 256 → b1 < 256 → b2 < 256 →
      RecordValue.parse .I24 [b0, b1, b2] =
        .ok (.I24 (if b0 < 128 then ((b0 * 65536 + b1 * 256 + b2 : Nat) : Int)
          else ((b0 * 65536 + b1 * 256 + b2 : Nat) : Int) - 2 ^ 24), 3)) ∧
    (∀ b0 b1 b2 b3 b4 b5 : Nat, b0 < 256 → b1 < 256 → b2 < 256 → b3 < 256 →
      b4 < 256 → b5 < 256 →
      RecordValue.parse .I48 [b0, b1, b2, b3, b4, b5] =
        .ok (.I48 (if b0 < 128 then
            ((b0 * 2 ^ 40 + b1 * 2 ^ 32 + b2 * 2 ^ 24 + b3 * 2 ^ 16 + b4 * 256 + b5 : Nat) : Int)
          else
            ((b0 * 2 ^ 40 + b1 * 2 ^ 32 + b2 * 2 ^ 24 + b3 * 2 ^ 16 + b4 * 256 + b5 : Nat) : Int)
              - 2 ^ 48), 6)) := by
  refine ⟨⟨rfl, rfl, rfl, rfl, rfl, rfl, rfl, rfl⟩, ?_, ?_, ?_, ?_⟩
  · intro st bytes v k hwf h
    cases st with
    | Null =>
      simp [RecordValue.parse] at h
      simp [SerialType.len, ← h.2]
    | Zero =>
      simp [RecordValue.parse] at h
      simp [SerialType.len, ← h.2]
    | One =>
      simp [RecordValue.parse] at h
      simp [SerialType.len, ← h.2]
    | I8 =>
      simp only [RecordValue.parse, exceptBind_ok] at h
      obtain ⟨a0, _, h⟩ := h
      simp at h
      simp [SerialType.len, ← h.2]
    | I16 =>
      simp only [RecordValue.parse, exceptBind_ok] at h
      obtain ⟨a0, _, a1, _, h⟩ := h
      simp at h
      simp [SerialType.len, ← h.2]
    | I24 =>
      simp only [RecordValue.parse, exceptBind_ok] at h
      obtain ⟨a0, _, a1, _, a2, _, h⟩ := h
      simp at h
      simp [SerialType.len, ← h.2]
    | I32 =>
      simp only [RecordValue.parse, exceptBind_ok] at h
      obtain ⟨a0, _, a1, _, a2, _, a3, _, h⟩ := h
      simp at h
      simp [SerialType.len, ← h.2]
    | I48 =>
      simp only [RecordValue.parse, exceptBind_ok] at h
      obtain ⟨a0, _, a1, _, a2, _, a3, _, a4, _, a5, _, h⟩ := h
      simp at h
      simp [SerialType.len, ← h.2]
    | I64 =>
      simp only [RecordValue.parse, exceptBind_ok] at h
      obtain ⟨a0, _, a1, _, a2, _, a3, _, a4, _, a5, _, a6, _, a7, _, h⟩ := h
      simp at h
      simp [SerialType.len, ← h.2]
    | F64 =>
      simp only [RecordValue.parse, exceptBind_ok] at h
      obtain ⟨a0, _, a1, _, a2, _, a3, _, a4, _, a5, _, a6, _, a7, _, h⟩ := h
      simp at h
      simp [SerialType.len, ← h.2]
    | N12AndEven n =>
      simp only [RecordValue.parse] at h
      split at h
      · exact absurd h (by simp)
      · simp at h
        simp [SerialType.len, ← h.2]
    | N13AndOdd n =>
      simp only [RecordValue.parse] at h
      split at h
      · exact absurd h (by simp)
      · split at h
        · simp at h
          obtain ⟨hwf1, hwf2⟩ := hwf
          have hu : intAsUsize n % 2 = 1 := by
            unfold intAsUsize
            omega
          simp [SerialType.len, ← h.2]
          omega
        · exact absurd h (by simp)
  · intro bytes pl r n h
    unfold Record.parse at h
    split at h
    · exact absurd h (by simp)
    · split at h
      · exact absurd h (by simp)
      · split at h
        · exact absurd h (by simp)
        · rename_i hvals
          simp at h
          rw [← h.1]
          exact valuesLoop_length _ _ _ _ _ hvals
  · intro b0 b1 b2 hb0 hb1 hb2
    simp only [RecordValue.parse, idx]
    simp only [List.getElem?_cons_zero, List.getElem?_cons_succ]
    simp only [Bind.bind, Except.bind]
    by_cases hlt : b0 < 128
    · simp only [if_pos hlt, toI32, u32be]
      rw [if_pos (by omega)]
      simp only [Except.ok.injEq, RecordValue.I24.injEq, Prod.mk.injEq, and_true]
      push_cast
      omega
    · simp only [if_neg hlt, toI32, u32be]
      rw [if_neg (by omega)]
      simp only [Except.ok.injEq, RecordValue.I24.injEq, Prod.mk.injEq, and_true]
      push_cast
      omega
  · intro b0 b1 b2 b3 b4 b5 hb0 hb1 hb2 hb3 hb4 hb5
    simp only [RecordValue.parse, idx]
    simp only [List.getElem?_cons_zero, List.getElem?_cons_succ]
    simp only [Bind.bind, Except.bind]
    by_cases hlt : b0 < 128
    · simp only [if_pos hlt, toInt64, u32be, u16be]
      rw [if_pos (by omega)]
      simp only [Except.ok.injEq, RecordValue.I48.injEq, Prod.mk.injEq, and_true]
      push_cast
      omega
    · simp only [if_neg hlt, toInt64, u32be, u16be]
      rw [if_neg (by omega)]
      simp only [Except.ok.injEq, RecordValue.I48.injEq, Prod.mk.injEq, and_true]
      push_cast
      omega

theorem c4_record_value_lengths_witness :
    RecordValue.parse .I24 [255, 0, 1] = .ok (.I24 (-65535), 3) := by
  have h := c4_record_value_lengths.2.2.2.1 255 0 1 (by norm_num) (by norm_num) (by norm_num)
  rw [h]
  norm_num

/-- C7 counterexample: the descriptor values 10, 11 and −1 are outside
the valid serial-type set, and the conversion aborts the process — the
source's final match arm is `panic!("Malformed SerialType")`, modelled as
`none` — rather than reporting a recoverable `FormatError` to the caller;
`Record::parse` (which performs the conversion) returns a plain pair and
has no error channel at all.  A record whose header contains descriptor
10 therefore crashes record parsing. -/
theorem c7_counterexample :
    SerialType.fromVarint 10 = none ∧ SerialType.fromVarint 11 = none ∧
    SerialType.fromVarint (-1) = none ∧
    Record.parse [2, 10] 2 = .error panicSerial := by
  refine ⟨rfl, rfl, rfl, rfl⟩

/-- C7 (amended): every descriptor value outside the valid set — not one
of 0 through 9, not an even value at least 12, and not an odd value at
least 13 — makes the `From<Varint> for SerialType` conversion panic
(process abort, modelled as `none`), not return a recoverable
`FormatError`. -/
theorem c7_serial_type_panics (v : Int)
    (h0 : ¬ (0 ≤ v ∧ v ≤ 9)) (h1 : ¬ (12 ≤ v ∧ v % 2 = 0))
    (h2 : ¬ (13 ≤ v ∧ v % 2 = 1)) :
    SerialType.fromVarint v = none := by
  unfold SerialType.fromVarint
  repeat rw [if_neg (by omega)]

theorem c7_serial_type_panics_witness :
    SerialType.fromVarint 10 = none :=
  c7_serial_type_panics 10 (by omega) (by omega) (by omega)

/-- C10: `Record::parse` is total only under a well-formedness
precondition on the record header.  Whenever the header-length varint's
value (cast `as usize`) is smaller than the byte length of that varint
itself, the unsigned subtraction `header_len - read` underflows and the
parse panics (debug-mode overflow abort) instead of returning a decode
error; in particular a record whose header-length varint decodes to 0
(`[0]`) panics, and a record whose last descriptor varint straddles the
header boundary (`[2, 129, 1]`: one header byte remains but the
descriptor varint occupies two) panics in `remaining -= read`.
Conversely a successful parse implies the precondition
`read ≤ header_len`. -/
theorem c10_record_parse_underflow :
    (∀ (bytes : List Nat) (pl : Nat),
      intAsUsize (Varint.parse bytes).1 < (Varint.parse bytes).2 →
      Record.parse bytes pl = .error panicSub) ∧
    Record.parse [0] 0 = .error panicSub ∧
    Record.parse [2, 129, 1] 3 = .error panicSub ∧
    (∀ (bytes : List Nat) (pl : Nat) (r : Record) (n : Nat),
      Record.parse bytes pl = .ok (r, n) →
      (Varint.parse bytes).2 ≤ intAsUsize (Varint.parse bytes).1) := by
  refine ⟨?_, rfl, rfl, ?_⟩
  · intro bytes pl h
    unfold Record.parse
    rw [if_pos h]
  · intro bytes pl r n h
    unfold Record.parse at h
    split at h
    · exact absurd h (by simp)
    · omega

theorem c10_record_parse_underflow_witness :
    Record.parse [128, 1] 0 = .error panicSub :=
  c10_record_parse_underflow.1 [128, 1] 0 (by decide)

/-! ## Database header (`btree_page.rs`, `DbHeader::parse`) -/

/-- The 16-byte magic: "SQLite format 3" plus the nul terminator. -/
def MAGIC : List Nat :=
  [83, 81, 76, 105, 116, 101, 32, 102, 111, 114, 109, 97, 116, 32, 51, 0]

/-- Specification of `u16::is_power_of_two` from the Rust standard
library: true exactly when the value equals `2 ^ k` for some `k` (a u16
power of two has `k < 16`). -/
def u16IsPowerOfTwo (n : Nat) : Bool :=
  (List.range 16).any (fun k => n == 2 ^ k)

theorem u16IsPowerOfTwo_iff (n : Nat) :
    u16IsPowerOfTwo n = true ↔ ∃ k, k < 16 ∧ n = 2 ^ k := by
  unfold u16IsPowerOfTwo
  simp [List.any_eq_true, List.mem_range]

/-- `DbHeader` from `btree_page.rs` (all fields decoded by the source). -/
structure DbHeader where
  magic : List Nat
  page_size : Nat
  format_write_version : Nat
  format_read_version : Nat
  reserved_space : Nat
  max_embedded_payload : Nat
  min_embedded_payload : Nat
  leaf_payload : Nat
  file_change_count : Nat
  page_count : Nat
  freelist_trunk_head : Nat
  freelist_page_count : Nat
  schema_cookie : Nat
  schema_format : Nat
  default_page_cache_size : Nat
  vacuum_root_page : Option Nat
  db_text_encoding : Nat
  user_version : Nat
  incremental_vacuum : Bool
  application_id : Nat
  version_valid_for : Nat
  sqlite_version : Nat
deriving DecidableEq, Repr

/-- The checks of `DbHeader::parse` after the page size has been decoded
(the source computes `page_size` and then runs these `ensure!`s in
order); split out so that the three page-size branches share it. -/
def dbHeaderRest (bytes : List Nat) (page_size : Nat) : Except String DbHeader :=
  if ¬ (bytes.getD 18 0 = 1 ∨ bytes.getD 18 0 = 2) then
    .error "Format write version is invalid"
  else if ¬ (bytes.getD 19 0 = 1 ∨ bytes.getD 19 0 = 2) then
    .error "Format read version is invalid"
  else if ¬ (bytes.getD 21 0 = 64) then
    .error "Maximum embedded payload size must be 64"
  else if ¬ (bytes.getD 22 0 = 32) then
    .error "Minimum embedded payload size must be 32"
  else if ¬ (bytes.getD 23 0 = 32) then
    .error "Leaf payload size must be 32"
  else if ¬ ((u32be (bytes.getD 36 0) (bytes.getD 37 0) (bytes.getD 38 0) (bytes.getD 39 0) = 0
        ∧ u32be (bytes.getD 32 0) (bytes.getD 33 0) (bytes.getD 34 0) (bytes.getD 35 0) = 0)
      ∨ (u32be (bytes.getD 36 0) (bytes.getD 37 0) (bytes.getD 38 0) (bytes.getD 39 0) ≠ 0
        ∧ u32be (bytes.getD 32 0) (bytes.getD 33 0) (bytes.getD 34 0) (bytes.getD 35 0) ≠ 0)) then
    .error "Freelist list trunk head and freelist page count disagree"
  else if ¬ (u32be (bytes.getD 44 0) (bytes.getD 45 0) (bytes.getD 46 0) (bytes.getD 47 0) ≤ 4) then
    .error "Schema format is invalid"
  else if ¬ (1 ≤ u32be (bytes.getD 56 0) (bytes.getD 57 0) (bytes.getD 58 0) (bytes.getD 59 0)
      ∧ u32be (bytes.getD 56 0) (bytes.getD 57 0) (bytes.getD 58 0) (bytes.getD 59 0) ≤ 3) then
    .error "Invalid database text encoding"
  else
    .ok {
      magic := bytes.take 16
      page_size
      format_write_version := bytes.getD 18 0
      format_read_version := bytes.getD 19 0
      reserved_space := bytes.getD 20 0
      max_embedded_payload := bytes.getD 21 0
      min_embedded_payload := bytes.getD 22 0
      leaf_payload := bytes.getD 23 0
      file_change_count := u32be (bytes.getD 24 0) (bytes.getD 25 0) (bytes.getD 26 0) (bytes.getD 27 0)
      page_count := u32be (bytes.getD 28 0) (bytes.getD 29 0) (bytes.getD 30 0) (bytes.getD 31 0)
      freelist_trunk_head := u32be (bytes.getD 32 0) (bytes.getD 33 0) (bytes.getD 34 0) (bytes.getD 35 0)
      freelist_page_count := u32be (bytes.getD 36 0) (bytes.getD 37 0) (bytes.getD 38 0) (bytes.getD 39 0)
      schema_cookie := u32be (bytes.getD 40 0) (bytes.getD 41 0) (bytes.getD 42 0) (bytes.getD 43 0)
      schema_format := u32be (bytes.getD 44 0) (bytes.getD 45 0) (bytes.getD 46 0) (bytes.getD 47 0)
      default_page_cache_size := u32be (bytes.getD 48 0) (bytes.getD 49 0) (bytes.getD 50 0) (bytes.getD 51 0)
      vacuum_root_page :=
        if u32be (bytes.getD 52 0) (bytes.getD 53 0) (bytes.getD 54 0) (bytes.getD 55 0) = 0 then none
        else some (u32be (bytes.getD 52 0) (bytes.getD 53 0) (bytes.getD 54 0) (bytes.getD 55 0))
      db_text_encoding := u32be (bytes.getD 56 0) (bytes.getD 57 0) (bytes.getD 58 0) (bytes.getD 59 0)
      user_version := u32be (bytes.getD 60 0) (bytes.getD 61 0) (bytes.getD 62 0) (bytes.getD 63 0)
      incremental_vacuum := 0 < u32be (bytes.getD 64 0) (bytes.getD 65 0) (bytes.getD 66 0) (bytes.getD 67 0)
      application_id := u32be (bytes.getD 68 0) (bytes.getD 69 0) (bytes.getD 70 0) (bytes.getD 71 0)
      version_valid_for := u32be (bytes.getD 92 0) (bytes.getD 93 0) (bytes.getD 94 0) (bytes.getD 95 0)
      sqlite_version := u32be (bytes.getD 96 0) (bytes.getD 97 0) (bytes.getD 98 0) (bytes.getD 99 0)
    }

/-- The raw big-endian u16 at offset 16 — the stored page size. -/
def rawPageSize (bytes : List Nat) : Nat := u16be (bytes.getD 16 0) (bytes.getD 17 0)

/-- `DbHeader::parse`: validate the magic, decode the page size (raw 1
means 65536, anything else must be a power of two in `[512, 32768]`),
then run the remaining `ensure!` validations.  The source indexes
`bytes[0..16]` through `bytes[99]`, a panic on a buffer shorter than
100 bytes. -/
def DbHeader.parse (bytes : List Nat) : Except String DbHeader :=
  if bytes.length < 100 then .error panicOOB
  else if ¬ (bytes.take 16 = MAGIC) then
    .error "Magic string at beginning of database file is missing or wrong"
  else if rawPageSize bytes = 1 then dbHeaderRest bytes 65536
  else if ¬ (512 ≤ rawPageSize bytes ∧ rawPageSize bytes ≤ 32768) then
    .error "Page size is not in valid range"
  else if ¬ (u16IsPowerOfTwo (rawPageSize bytes) = true) then
    .error "Page size is not a power of two"
  else dbHeaderRest bytes (rawPageSize bytes)

theorem dbHeaderRest_page_size (bytes : List Nat) (ps : Nat) (h : DbHeader)
    (hok : dbHeaderRest bytes ps = .ok h) : h.page_size = ps := by
  unfold dbHeaderRest at hok
  split at hok
  · exact absurd hok (by simp)
  · split at hok
    · exact absurd hok (by simp)
    · split at hok
      · exact absurd hok (by simp)
      · split at hok
        · exact absurd hok (by simp)
        · split at hok
          · exact absurd hok (by simp)
          · split at hok
            · exact absurd hok (by simp)
            · split at hok
              · exact absurd hok (by simp)
              · split at hok
                · exact absurd hok (by simp)
                · simp at hok
                  rw [← hok]

/-- C5: page-size decoding.  A raw big-endian u16 of 1 at offset 16
yields page size 65536; any other raw value is returned as-is and must
be a power of two in `[512, 32768]`; a raw value outside `[512, 32768]`
(such as 400) fails with the range error, and an in-range raw value that
is not a power of two (such as 513) fails with the power-of-two error. -/
theorem c5_page_size_decoding :
    (∀ (bytes : List Nat) (h : DbHeader), DbHeader.parse bytes = .ok h →
      (rawPageSize bytes = 1 → h.page_size = 65536) ∧
      (rawPageSize bytes ≠ 1 → h.page_size = rawPageSize bytes ∧
        512 ≤ rawPageSize bytes ∧ rawPageSize bytes ≤ 32768 ∧
        ∃ k, rawPageSize bytes = 2 ^ k)) ∧
    (∀ bytes : List Nat, 100 ≤ bytes.length → bytes.take 16 = MAGIC →
      rawPageSize bytes ≠ 1 → ¬ (512 ≤ rawPageSize bytes ∧ rawPageSize bytes ≤ 32768) →
      DbHeader.parse bytes = .error "Page size is not in valid range") ∧
    (∀ bytes : List Nat, 100 ≤ bytes.length → bytes.take 16 = MAGIC →
      rawPageSize bytes ≠ 1 → 512 ≤ rawPageSize bytes → rawPageSize bytes ≤ 32768 →
      (∀ k, rawPageSize bytes ≠ 2 ^ k) →
      DbHeader.parse bytes = .error "Page size is not a power of two") := by
  refine ⟨?_, ?_, ?_⟩
  · intro bytes h hok
    unfold DbHeader.parse at hok
    split at hok
    · exact absurd hok (by simp)
    · split at hok
      · exact absurd hok (by simp)
      · split at hok
        · rename_i hraw
          constructor
          · intro _
            exact dbHeaderRest_page_size bytes 65536 h hok
          · intro hne
            exact absurd hraw hne
        · split at hok
          · exact absurd hok (by simp)
          · split at hok
            · exact absurd hok (by simp)
            · rename_i hraw hrange hpow
              constructor
              · intro h1
                exact absurd h1 hraw
              · intro _
                refine ⟨dbHeaderRest_page_size bytes _ h hok, by omega, by omega, ?_⟩
                rw [not_not] at hpow
                obtain ⟨k, _, hk⟩ := (u16IsPowerOfTwo_iff _).1 hpow
                exact ⟨k, hk⟩
  · intro bytes hlen hmagic hraw hrange
    unfold DbHeader.parse
    rw [if_neg (by omega), if_neg (by rw [hmagic]; simp), if_neg hraw, if_pos hrange]
  · intro bytes hlen hmagic hraw h512 h32768 hnpow
    unfold DbHeader.parse
    rw [if_neg (by omega), if_neg (by rw [hmagic]; simp), if_neg hraw,
      if_neg (by rw [not_not]; exact ⟨h512, h32768⟩)]
    rw [if_pos]
    intro habs
    obtain ⟨k, _, hk⟩ := (u16IsPowerOfTwo_iff _).1 habs
    exact hnpow k hk

/-- A valid 100-byte header with the given two raw page-size bytes. -/
def mkHeader (ps0 ps1 : Nat) : List Nat :=
  MAGIC ++ [ps0, ps1] ++ [1, 1, 0, 64, 32, 32] ++ List.replicate 32 0 ++
    [0, 0, 0, 1] ++ List.replicate 40 0

theorem c5_page_size_decoding_witness :
    DbHeader.parse (mkHeader 1 144) = .error "Page size is not in valid range" ∧
    DbHeader.parse (mkHeader 2 1) = .error "Page size is not a power of two" := by
  constructor
  · exact c5_page_size_decoding.2.1 (mkHeader 1 144) (by decide) (by decide)
      (by decide) (by decide)
  · exact c5_page_size_decoding.2.2 (mkHeader 2 1) (by decide) (by decide)
      (by decide) (by decide) (by decide)
      (fun k => by
        rcases Nat.lt_or_ge k 16 with hk | hk
        · interval_cases k <;> decide
        · have : 2 ^ 16 ≤ 2 ^ k := Nat.pow_le_pow_right (by norm_num) hk
          have : rawPageSize (mkHeader 2 1) = 513 := by decide
          omega)

/-! ## B-tree pages and cells (`btree_page.rs`) -/

/-- `BTreePageType` with its `TryFrom<u8>` discriminants 0x02 / 0x05 /
0x0a / 0x0d. -/
inductive BTreePageType where
  | InteriorIndex
  | InteriorTable
  | LeafIndex
  | LeafTable
deriving DecidableEq, Repr

/-- `TryFrom<u8> for BTreePageType`; any other byte is the
"Not a valid B-Tree page type" error (the source formats the offending
byte into the message; the fixed prefix is kept here). -/
def BTreePageType.fromByte (b : Nat) : Except String BTreePageType :=
  if b = 2 then .ok .InteriorIndex
  else if b = 5 then .ok .InteriorTable
  else if b = 10 then .ok .LeafIndex
  else if b = 13 then .ok .LeafTable
  else .error "Not a valid B-Tree page type"

/-- `BTreePageHeader` from `btree_page.rs`. -/
structure BTreePageHeader where
  page_type : BTreePageType
  first_freeblock : Nat
  num_cells : Nat
  cell_content_area : Nat
  fragmented : Nat
  right_most : Option Nat
deriving DecidableEq, Repr

/-- `BTreePageHeader::len`: 12 bytes for interior pages, 8 for leaves. -/
def BTreePageHeader.len (h : BTreePageHeader) : Nat :=
  match h.page_type with
  | .InteriorIndex | .InteriorTable => 12
  | .LeafIndex | .LeafTable => 8

/-- `BTreePageHeader::parse`: type byte, freeblock pointer, cell count,
content-area offset (stored 0 means 65536), fragmented byte, and — for
interior pages only — the right-most child pointer at bytes 8–11. -/
def BTreePageHeader.parse (bytes : List Nat) : Except String BTreePageHeader := do
  let b0 ← idx bytes 0
  let page_type ← BTreePageType.fromByte b0
  let f1 ← idx bytes 1
  let f2 ← idx bytes 2
  let n1 ← idx bytes 3
  let n2 ← idx bytes 4
  let c1 ← idx bytes 5
  let c2 ← idx bytes 6
  let frag ← idx bytes 7
  let right_most ←
    match page_type with
    | .InteriorIndex | .InteriorTable => do
      let r0 ← idx bytes 8
      let r1 ← idx bytes 9
      let r2 ← idx bytes 10
      let r3 ← idx bytes 11
      pure (some (u32be r0 r1 r2 r3))
    | .LeafIndex | .LeafTable => pure none
  .ok { page_type, first_freeblock := u16be f1 f2, num_cells := u16be n1 n2,
        cell_content_area := if u16be c1 c2 = 0 then 65536 else u16be c1 c2,
        fragmented := frag, right_most }

/-- `Cell` from `btree_page.rs`.  Index cells are `todo!()` in the
source and carry no data. -/
inductive Cell where
  | TableLeaf (payload_len : Int) (key : Int) (payload : Record) (overflow : Option Nat)
  | TableInterior (left_child : Nat) (key : Int)
  | IndexLeaf
  | IndexInterior
deriving DecidableEq, Repr

/-- `Cell::parse`.  Index kinds are `todo!()` aborts.  An
interior-table cell is a 4-byte big-endian left-child page number plus a
varint key.  A leaf-table cell is payload-length varint, rowid varint,
a `Record` spanning the payload, and — when the record consumed fewer
bytes than `payload_len` claims — a trailing 4-byte overflow page
pointer (its content is unsupported and not followed). -/
def Cell.parse (kind : BTreePageType) (bytes : List Nat) : Except String Cell :=
  match kind with
  | .InteriorIndex => .error todoIndex
  | .LeafIndex => .error todoIndex
  | .InteriorTable => do
    let b0 ← idx bytes 0
    let b1 ← idx bytes 1
    let b2 ← idx bytes 2
    let b3 ← idx bytes 3
    .ok (.TableInterior (u32be b0 b1 b2 b3) (Varint.parse (bytes.drop 4)).1)
  | .LeafTable =>
    match Record.parse (bytes.drop ((Varint.parse bytes).2
        + (Varint.parse (bytes.drop (Varint.parse bytes).2)).2))
        (intAsUsize (Varint.parse bytes).1) with
    | .error e => .error e
    | .ok (payload, r3) =>
      if r3 = intAsUsize (Varint.parse bytes).1 then
        .ok (.TableLeaf (Varint.parse bytes).1
          (Varint.parse (bytes.drop (Varint.parse bytes).2)).1 payload none)
      else do
        let o0 ← idx bytes ((Varint.parse bytes).2
          + (Varint.parse (bytes.drop (Varint.parse bytes).2)).2 + r3)
        let o1 ← idx bytes ((Varint.parse bytes).2
          + (Varint.parse (bytes.drop (Varint.parse bytes).2)).2 + r3 + 1)
        let o2 ← idx bytes ((Varint.parse bytes).2
          + (Varint.parse (bytes.drop (Varint.parse bytes).2)).2 + r3 + 2)
        let o3 ← idx bytes ((Varint.parse bytes).2
          + (Varint.parse (bytes.drop (Varint.parse bytes).2)).2 + r3 + 3)
        .ok (.TableLeaf (Varint.parse bytes).1
          (Varint.parse (bytes.drop (Varint.parse bytes).2)).1 payload
          (some (u32be o0 o1 o2 o3)))

/-- `BTreePage` from `btree_page.rs`. -/
structure BTreePage where
  header : BTreePageHeader
  cell_pointer_array : List Nat
  cells : List Cell
deriving DecidableEq, Repr

/-- The cell-pointer loop of `BTreePage::parse`: read `n` big-endian u16
pointers starting at cell index `c`, each at offset `c * 2 + hdrLen`; on
the first page subtract 100 from each (a debug-mode underflow panic when
the stored pointer is below 100). -/
def cellPointersAux (page : List Nat) (first_page : Bool) (hdrLen : Nat) :
    Nat → Nat → Except String (List Nat)
  | _, 0 => .ok []
  | c, n + 1 =>
    match idx page (c * 2 + hdrLen) with
    | .error e => .error e
    | .ok a =>
      match idx page (c * 2 + hdrLen + 1) with
      | .error e => .error e
      | .ok b =>
        if first_page ∧ u16be a b < 100 then .error panicSub
        else
          match cellPointersAux page first_page hdrLen (c + 1) n with
          | .error e => .error e
          | .ok rest =>
            .ok ((if first_page then u16be a b - 100 else u16be a b) :: rest)

/-- The cell loop of `BTreePage::parse`: dereference each pointer
(`&page[cp..]` panics when `cp` exceeds the buffer) and parse one cell. -/
def cellsParseLoop (page : List Nat) (pt : BTreePageType) :
    List Nat → Except String (List Cell)
  | [] => .ok []
  | cp :: rest =>
    if page.length < cp then .error panicOOB
    else
      match Cell.parse pt (page.drop cp) with
      | .error e => .error e
      | .ok c =>
        match cellsParseLoop page pt rest with
        | .error e => .error e
        | .ok cs => .ok (c :: cs)

/-- `BTreePage::parse`: the source slices `&page[0..12]` for the header
(a panic on a shorter buffer), reads the cell-pointer array, then parses
each cell. -/
def BTreePage.parse (page : List Nat) (first_page : Bool) : Except String BTreePage :=
  if page.length < 12 then .error panicOOB
  else
    match BTreePageHeader.parse (page.take 12) with
    | .error e => .error e
    | .ok header =>
      match cellPointersAux page first_page header.len 0 header.num_cells with
      | .error e => .error e
      | .ok cps =>
        match cellsParseLoop page header.page_type cps with
        | .error e => .error e
        | .ok cells => .ok { header, cell_pointer_array := cps, cells }

/-- The raw stored cell pointer `i` of a page buffer: the big-endian u16
at offset `i * 2 + hdrLen`. -/
def rawPtr (page : List Nat) (hdrLen i : Nat) : Nat :=
  u16be (page.getD (i * 2 + hdrLen) 0) (page.getD (i * 2 + hdrLen + 1) 0)

theorem cellPointersAux_spec (page : List Nat) (first_page : Bool) (hdrLen : Nat) :
    ∀ n c l, cellPointersAux page first_page hdrLen c n = .ok l →
      l.length = n ∧
      ∀ i, i < n →
        l.getD i 0 = (if first_page then rawPtr page hdrLen (c + i) - 100
          else rawPtr page hdrLen (c + i)) := by
  intro n
  induction n with
  | zero =>
    intro c l h
    simp [cellPointersAux] at h
    simp [← h]
  | succ m ih =>
    intro c l h
    unfold cellPointersAux at h
    split at h
    · exact absurd h (by simp)
    · rename_i a ha
      split at h
      · exact absurd h (by simp)
      · rename_i b hb
        split at h
        · exact absurd h (by simp)
        · split at h
          · exact absurd h (by simp)
          · rename_i rest hrest
            simp at h
            obtain ⟨hl, hrec⟩ := ih (c + 1) rest hrest
            have hga : (page[c * 2 + hdrLen]?).getD 0 = a := by
              unfold idx at ha
              split at ha
              · rename_i v hv
                rw [hv]
                simpa using ha
              · exact absurd ha (by simp)
            have hgb : (page[c * 2 + hdrLen + 1]?).getD 0 = b := by
              unfold idx at hb
              split at hb
              · rename_i v hv
                rw [hv]
                simpa using hb
              · exact absurd hb (by simp)
            constructor
            · rw [← h]
              simp [hl]
            · intro i hi
              rw [← h]
              match i with
              | 0 =>
                simp [rawPtr, List.getD_eq_getElem?_getD, hga, hgb]
              | j + 1 =>
                simp only [List.getD_cons_succ]
                have hj := hrec j (by omega)
                rw [hj]
                have hc : c + 1 + j = c + (j + 1) := by omega
                rw [hc]

/-- C9: every cell pointer read by `BTreePage::parse` equals the stored
big-endian u16, with 100 subtracted exactly when the page is parsed as
the first page (whose buffer had the 100-byte file header stripped); on
every other page the stored pointer is used unchanged.  In particular a
stored pointer of 200 on page 1 becomes effective offset 100. -/
theorem c9_first_page_pointer_correction (page : List Nat) (first_page : Bool)
    (P : BTreePage) (h : BTreePage.parse page first_page = .ok P) :
    P.cell_pointer_array.length = P.header.num_cells ∧
    ∀ i, i < P.header.num_cells →
      P.cell_pointer_array.getD i 0 =
        (if first_page then rawPtr page P.header.len i - 100
         else rawPtr page P.header.len i) := by
  unfold BTreePage.parse at h
  split at h
  · exact absurd h (by simp)
  · split at h
    · exact absurd h (by simp)
    · split at h
      · exact absurd h (by simp)
      · split at h
        · exact absurd h (by simp)
        · rename_i x1 header heq1 x2 cps hcps x3 cells hcells
          simp at h
          obtain ⟨hlen, hspec⟩ := cellPointersAux_spec page first_page header.len
            header.num_cells 0 cps hcps
          rw [← h]
          constructor
          · simpa using hlen
          · intro i hi
            simpa using hspec i hi

/-- Extract the value of a successful parse (with an explicit default —
used only to name concrete parse results in witnesses). -/
def getOk {α : Type} (d : α) : Except String α → α
  | .ok a => a
  | .error _ => d

/-- A concrete "page 1" B-tree region: a leaf-table page with one cell
whose stored pointer is 200; after first-page correction the cell lives
at effective offset 100, where a minimal record cell `[2, 1, 2, 0]`
(payload length 2, rowid 1, header length 2, one Null descriptor) is
placed. -/
def c9Page : List Nat :=
  [13, 0, 0, 0, 1, 0, 0, 0, 0, 200] ++ List.replicate 90 0 ++ [2, 1, 2, 0] ++
    List.replicate 308 0

/-- A junk default page, used only to name parse results. -/
def defaultPage : BTreePage := ⟨⟨.LeafTable, 0, 0, 0, 0, none⟩, [], []⟩

def c9PageParsed : BTreePage := getOk defaultPage (BTreePage.parse c9Page true)

set_option maxRecDepth 8000 in
theorem c9_first_page_pointer_correction_witness :
    c9PageParsed.cell_pointer_array.getD 0 0 = rawPtr c9Page 8 0 - 100 ∧
    rawPtr c9Page 8 0 = 200 ∧
    c9PageParsed.cell_pointer_array.getD 0 0 = 100 ∧
    c9PageParsed.cells =
      [Cell.TableLeaf 2 1 ⟨2, [.Null], [.Null]⟩ none] := by
  have hp : BTreePage.parse c9Page true = .ok c9PageParsed := by rfl
  have h := c9_first_page_pointer_correction c9Page true c9PageParsed hp
  have h0 := h.2 0 (by decide)
  refine ⟨?_, by decide, by decide, by decide⟩
  simp at h0
  simp only [List.getD_eq_getElem?_getD]
  exact h0

/-! ## Schema/table walkers (`main.rs`)

Files are byte lists; `read_exact_at` must fill the whole buffer or
fail.  The traversal stack (`remaining_pages`, a `Vec` pushed at the
back and popped from the back) is modelled as a list whose head is the
top of the stack: pushing the children `c1 … ck` and then the right-most
pointer therefore yields `(pushPages …).reverse ++ stack`.  The Rust
`loop` has no termination guarantee on cyclic files, so the model takes
explicit fuel; `outOfFuel` is a model artifact that never fires for the
tree-shaped inputs of the theorems below. -/

def outOfFuel : String := "model: traversal fuel exhausted"

/-- `read_exact_at`: a full-length read or an error (short reads are
fatal, never silently retried). -/
def readExactAt (file : List Nat) (len off : Nat) : Except String (List Nat) :=
  if off + len ≤ file.length then .ok ((file.drop off).take len)
  else .error "io: failed to fill whole buffer"

/-- UTF-8 bytes of the Rust literal `"table"`. -/
def tableBytes : List Nat := [116, 97, 98, 108, 101]

/-- UTF-8 bytes of the Rust literal `"sqlite_"`. -/
def sqlitePfx : List Nat := [115, 113, 108, 105, 116, 101, 95]

/-- Rust `char::is_whitespace` restricted to single-byte (ASCII)
characters; the walker's `trim` is modelled for ASCII data (multi-byte
Unicode whitespace is outside the scope of the claims, whose names are
ASCII). -/
def isWsByte (b : Nat) : Bool :=
  b == 9 || b == 10 || b == 11 || b == 12 || b == 13 || b == 32

/-- `str::trim` on ASCII data: strip leading and trailing whitespace. -/
def asciiTrim (l : List Nat) : List Nat :=
  ((l.dropWhile isWsByte).reverse.dropWhile isWsByte).reverse

/-- The interior-page `for cell in cells` push loop shared by all three
walkers: every cell must be `TableInterior` (else
"Unexpected cell type"), and each `left_child - 1` underflows (panics)
on a zero page number. -/
def pushChildren : List Cell → Except String (List Nat)
  | [] => .ok []
  | .TableInterior lc _ :: rest =>
    if lc = 0 then .error panicSub
    else
      match pushChildren rest with
      | .error e => .error e
      | .ok l => .ok ((lc - 1) :: l)
  | _ :: _ => .error "Unexpected cell type"

/-- The full interior-page transition: push every cell's left child in
array order, then the right-most pointer (whose absence is an `expect`
panic), each converted to 0-based.  Returns the pushed page numbers in
push order. -/
def pushPages (btree : BTreePage) : Except String (List Nat) :=
  match pushChildren btree.cells with
  | .error e => .error e
  | .ok cs =>
    match btree.header.right_most with
    | none => .error panicRightMost
    | some rm =>
      if rm = 0 then .error panicSub
      else .ok (cs ++ [rm - 1])

/-- Fetch and parse a (0-based) page: `read_exact_at` at
`page * page_size` followed by `BTreePage::parse` with
`first_page = false`. -/
def fetchPage (file : List Nat) (pS p : Nat) : Except String BTreePage :=
  match readExactAt file pS (p * pS) with
  | .error e => .error e
  | .ok page => BTreePage.parse page false

/-- The leaf-page cell loop of `dot_tables`: `values[0]` must be a text
value (indexing an empty record is a panic, a non-text value is
"Unexpected record value"); when it equals `"table"`, `values[2]` must
be a text name, and every name lacking the `"sqlite_"` prefix is
appended to the accumulator as `" " ++ name`. -/
def collectNames : List Cell → List Nat → Except String (List Nat)
  | [], acc => .ok acc
  | .TableLeaf _ _ r _ :: rest, acc =>
    match r.values[0]? with
    | none => .error panicOOB
    | some (RecordValue.N13AndOdd s) =>
      if s = tableBytes then
        match r.values[2]? with
        | none => .error panicOOB
        | some (RecordValue.N13AndOdd n) =>
          if sqlitePfx.isPrefixOf n then collectNames rest acc
          else collectNames rest (acc ++ 32 :: n)
        | some _ => .error "Unexpected record value"
      else collectNames rest acc
    | some _ => .error "Unexpected record value"
  | _ :: _, _ => .error "Unexpected cell type"

/-- The leaf-page cell loop of the schema search in `count_rows`: find
the first cell whose `values[0]` is the text `"table"` and whose
`values[2]` equals the requested name; read `serial_types[3]` (any
integer serial type, else "Unexpected serial type for rootpage"), fetch
the matching integer value from `values[3]` (a constructor mismatch is
the `panic!("We checked the SerialType")` abort), cast it `as u64` and
subtract 1 (an underflow panic on 0).  Returns `some` 0-based root page
on a match, `none` when the cells are exhausted. -/
def schemaFindInCells (table : List Nat) : List Cell → Except String (Option Nat)
  | [] => .ok none
  | .TableLeaf _ _ r _ :: rest =>
    match r.values[0]? with
    | none => .error panicOOB
    | some (RecordValue.N13AndOdd s) =>
      if s = tableBytes then
        match r.values[2]? with
        | none => .error panicOOB
        | some (RecordValue.N13AndOdd n) =>
          if n = table then
            match r.serial_types[3]? with
            | none => .error panicOOB
            | some SerialType.I8 =>
              match r.values[3]? with
              | none => .error panicOOB
              | some (RecordValue.I8 rp) =>
                if toUInt64 rp = 0 then .error panicSub else .ok (some (toUInt64 rp - 1))
              | some _ => .error panicChecked
            | some SerialType.I16 =>
              match r.values[3]? with
              | none => .error panicOOB
              | some (RecordValue.I16 rp) =>
                if toUInt64 rp = 0 then .error panicSub else .ok (some (toUInt64 rp - 1))
              | some _ => .error panicChecked
            | some SerialType.I24 =>
              match r.values[3]? with
              | none => .error panicOOB
              | some (RecordValue.I24 rp) =>
                if toUInt64 rp = 0 then .error panicSub else .ok (some (toUInt64 rp - 1))
              | some _ => .error panicChecked
            | some SerialType.I32 =>
              match r.values[3]? with
              | none => .error panicOOB
              | some (RecordValue.I32 rp) =>
                if toUInt64 rp = 0 then .error panicSub else .ok (some (toUInt64 rp - 1))
              | some _ => .error panicChecked
            | some SerialType.I48 =>
              match r.values[3]? with
              | none => .error panicOOB
              | some (RecordValue.I48 rp) =>
                if toUInt64 rp = 0 then .error panicSub else .ok (some (toUInt64 rp - 1))
              | some _ => .error panicChecked
            | some SerialType.I64 =>
              match r.values[3]? with
              | none => .error panicOOB
              | some (RecordValue.I64 rp) =>
                if toUInt64 rp = 0 then .error panicSub else .ok (some (toUInt64 rp - 1))
              | some _ => .error panicChecked
            | some _ => .error "Unexpected serial type for rootpage"
          else schemaFindInCells table rest
        | some _ => .error "Unexpected record value"
      else schemaFindInCells table rest
    | some _ => .error "Unexpected record value"
  | _ :: _ => .error "Unexpected cell type"

/-- The `loop` of `dot_tables`: process the current page, then — unless
the stack is empty, in which case the accumulated string is trimmed and
returned — pop the next page number, fetch, parse, continue. -/
def tablesLoop (file : List Nat) (pS : Nat) :
    Nat → BTreePage → List Nat → List Nat → Except String (List Nat)
  | 0, _, _, _ => .error outOfFuel
  | fuel + 1, btree, stack, acc =>
    match btree.header.page_type with
    | .InteriorIndex => .error todoIndex
    | .LeafIndex => .error todoIndex
    | .InteriorTable =>
      match pushPages btree with
      | .error e => .error e
      | .ok ps =>
        match ps.reverse ++ stack with
        | [] => .ok (asciiTrim acc)
        | p :: rest =>
          match fetchPage file pS p with
          | .error e => .error e
          | .ok b => tablesLoop file pS fuel b rest acc
    | .LeafTable =>
      match collectNames btree.cells acc with
      | .error e => .error e
      | .ok acc2 =>
        match stack with
        | [] => .ok (asciiTrim acc2)
        | p :: rest =>
          match fetchPage file pS p with
          | .error e => .error e
          | .ok b => tablesLoop file pS fuel b rest acc2

/-- The schema-search `loop` of `count_rows`: like `tablesLoop`, but a
leaf match breaks out with the 0-based root page, and an emptied stack
is the "Table not found in database" failure. -/
def schemaLoop (file : List Nat) (pS : Nat) (table : List Nat) :
    Nat → BTreePage → List Nat → Except String Nat
  | 0, _, _ => .error outOfFuel
  | fuel + 1, btree, stack =>
    match btree.header.page_type with
    | .InteriorIndex => .error todoIndex
    | .LeafIndex => .error todoIndex
    | .InteriorTable =>
      match pushPages btree with
      | .error e => .error e
      | .ok ps =>
        match ps.reverse ++ stack with
        | [] => .error "Table not found in database"
        | p :: rest =>
          match fetchPage file pS p with
          | .error e => .error e
          | .ok b => schemaLoop file pS table fuel b rest
    | .LeafTable =>
      match schemaFindInCells table btree.cells with
      | .error e => .error e
      | .ok (some rp0) => .ok rp0
      | .ok none =>
        match stack with
        | [] => .error "Table not found in database"
        | p :: rest =>
          match fetchPage file pS p with
          | .error e => .error e
          | .ok b => schemaLoop file pS table fuel b rest

/-- The counting `loop` of `count_rows`: leaf-table pages add their
`num_cells` to the row total, interior-table pages contribute nothing
and push all their children; the loop returns the total when the stack
empties. -/
def countLoop (file : List Nat) (pS : Nat) :
    Nat → BTreePage → List Nat → Nat → Except String Nat
  | 0, _, _, _ => .error outOfFuel
  | fuel + 1, btree, stack, rows =>
    match btree.header.page_type with
    | .InteriorIndex => .error todoIndex
    | .LeafIndex => .error todoIndex
    | .InteriorTable =>
      match pushPages btree with
      | .error e => .error e
      | .ok ps =>
        match ps.reverse ++ stack with
        | [] => .ok rows
        | p :: rest =>
          match fetchPage file pS p with
          | .error e => .error e
          | .ok b => countLoop file pS fuel b rest rows
    | .LeafTable =>
      match stack with
      | [] => .ok (rows + btree.header.num_cells)
      | p :: rest =>
        match fetchPage file pS p with
        | .error e => .error e
        | .ok b => countLoop file pS fuel b rest (rows + btree.header.num_cells)

/-- `dot_tables`: read and validate the 100-byte header, read page 1,
parse its B-tree region (`&page[100..]`, `first_page = true`), then walk
the schema tree collecting table names; the result is the accumulated
string, trimmed. -/
def dot_tables (file : List Nat) (fuel : Nat) : Except String (List Nat) :=
  match readExactAt file 100 0 with
  | .error e => .error e
  | .ok hdrB =>
    match DbHeader.parse hdrB with
    | .error e => .error e
    | .ok hdr =>
      match readExactAt file hdr.page_size 0 with
      | .error e => .error e
      | .ok page0 =>
        match BTreePage.parse (page0.drop 100) true with
        | .error e => .error e
        | .ok b0 => tablesLoop file hdr.page_size fuel b0 [] []

/-- `count_rows`: walk the schema tree from page 1 for the row whose
type is `"table"` and whose name matches; read its root page from
column 3; then walk the B-tree rooted there summing `num_cells` over
every leaf-table page. -/
def count_rows (table : List Nat) (file : List Nat) (fuel : Nat) : Except String Nat :=
  match readExactAt file 100 0 with
  | .error e => .error e
  | .ok hdrB =>
    match DbHeader.parse hdrB with
    | .error e => .error e
    | .ok hdr =>
      match readExactAt file hdr.page_size 0 with
      | .error e => .error e
      | .ok page0 =>
        match BTreePage.parse (page0.drop 100) true with
        | .error e => .error e
        | .ok b0 =>
          match schemaLoop file hdr.page_size table fuel b0 [] with
          | .error e => .error e
          | .ok rp0 =>
            match fetchPage file hdr.page_size rp0 with
            | .error e => .error e
            | .ok b => countLoop file hdr.page_size fuel b [] 0

/-! ## Abstract page trees

`PTree` records the shape the walkers traverse: each node carries its
0-based page number, its parsed `BTreePage`, and (for interior pages)
its subtrees listed in *push order* — left children in cell-array order
followed by the right-most child.  `Rep F t` states that the fetch
function `F` actually produces the recorded pages and that the recorded
push lists match `pushPages` of each interior page.  The visitation
order of the walkers follows from the LIFO stack: the children of a node
are visited last-pushed-first, i.e. in reverse push order. -/

inductive PTree where
  | leaf (pg : Nat) (P : BTreePage)
  | node (pg : Nat) (P : BTreePage) (kids : List PTree)

/-- The 0-based page number of a subtree's top page. -/
def PTree.pg : PTree → Nat
  | .leaf p _ => p
  | .node p _ _ => p

/-- The parsed top page of a subtree. -/
def PTree.top : PTree → BTreePage
  | .leaf _ P => P
  | .node _ P _ => P

mutual
/-- Number of pages in a subtree. -/
def totalSize : PTree → Nat
  | .leaf _ _ => 1
  | .node _ _ kids => 1 + totalSizeL kids
def totalSizeL : List PTree → Nat
  | [] => 0
  | t :: ts => totalSize t + totalSizeL ts
end

mutual
/-- Sum of `num_cells` over the leaf pages of a subtree — each leaf
contributes exactly once. -/
def leafSum : PTree → Nat
  | .leaf _ P => P.header.num_cells
  | .node _ _ kids => leafSumL kids
def leafSumL : List PTree → Nat
  | [] => 0
  | t :: ts => leafSum t + leafSumL ts
end

mutual
/-- The leaf cells of a subtree in the walkers' visitation order: a
node's children are visited in reverse push order (the stack pops the
right-most child first). -/
def visitCells : PTree → List Cell
  | .leaf _ P => P.cells
  | .node _ _ kids => visitCellsRev kids
def visitCellsRev : List PTree → List Cell
  | [] => []
  | t :: ts => visitCellsRev ts ++ visitCells t
end

/-- The leaf cells contributed by a list of pending subtrees in stack
order (head popped, and therefore visited, first). -/
def visitCellsOf : List PTree → List Cell
  | [] => []
  | t :: ts => visitCells t ++ visitCellsOf ts

/-- `Rep F t`: the tree `t` faithfully describes the pages reachable
from its top page under the fetch function `F`. -/
inductive PageRep (F : Nat → Except String BTreePage) : PTree → Prop where
  | leaf : ∀ pg P, P.header.page_type = .LeafTable → PageRep F (.leaf pg P)
  | node : ∀ pg P kids, P.header.page_type = .InteriorTable →
      pushPages P = .ok (kids.map PTree.pg) →
      (∀ t ∈ kids, F t.pg = .ok t.top) →
      (∀ t ∈ kids, PageRep F t) →
      PageRep F (.node pg P kids)

theorem totalSizeL_append (a b : List PTree) :
    totalSizeL (a ++ b) = totalSizeL a + totalSizeL b := by
  induction a with
  | nil => simp [totalSizeL]
  | cons t ts ih => simp [totalSizeL, ih]; omega

theorem totalSizeL_reverse (a : List PTree) :
    totalSizeL a.reverse = totalSizeL a := by
  induction a with
  | nil => rfl
  | cons t ts ih => simp [totalSizeL, totalSizeL_append, ih]; omega

theorem leafSumL_append (a b : List PTree) :
    leafSumL (a ++ b) = leafSumL a + leafSumL b := by
  induction a with
  | nil => simp [leafSumL]
  | cons t ts ih => simp [leafSumL, ih]; omega

theorem leafSumL_reverse (a : List PTree) :
    leafSumL a.reverse = leafSumL a := by
  induction a with
  | nil => rfl
  | cons t ts ih => simp [leafSumL, leafSumL_append, ih]; omega

theorem visitCellsOf_append (a b : List PTree) :
    visitCellsOf (a ++ b) = visitCellsOf a ++ visitCellsOf b := by
  induction a with
  | nil => simp [visitCellsOf]
  | cons t ts ih => simp [visitCellsOf, ih]

theorem visitCellsRev_eq_visitCellsOf_reverse (a : List PTree) :
    visitCellsRev a = visitCellsOf a.reverse := by
  induction a with
  | nil => rfl
  | cons t ts ih =>
    simp [visitCellsRev, visitCellsOf, ih, visitCellsOf_append]

theorem totalSize_pos (t : PTree) : 1 ≤ totalSize t := by
  cases t with
  | leaf p P => simp [totalSize]
  | node p P kids => simp [totalSize]

theorem pushPages_ne_nil (P : BTreePage) (l : List Nat)
    (h : pushPages P = .ok l) : l ≠ [] := by
  unfold pushPages at h
  split at h
  · exact absurd h (by simp)
  · split at h
    · exact absurd h (by simp)
    · split at h
      · exact absurd h (by simp)
      · simp at h
        intro hl
        rw [hl] at h
        exact absurd h (by simp)

theorem countLoop_spec (file : List Nat) (pS : Nat) :
    ∀ fuel (t : PTree) (pts : List PTree) (rows : Nat),
      PageRep (fetchPage file pS) t →
      (∀ u ∈ pts, fetchPage file pS u.pg = .ok u.top) →
      (∀ u ∈ pts, PageRep (fetchPage file pS) u) →
      totalSize t + totalSizeL pts ≤ fuel →
      countLoop file pS fuel t.top (pts.map PTree.pg) rows
        = .ok (rows + leafSum t + leafSumL pts) := by
  intro fuel
  induction fuel with
  | zero =>
    intro t pts rows _ _ _ hsz
    have := totalSize_pos t
    omega
  | succ f ih =>
    intro t pts rows hrep hfet hreps hsz
    cases hrep with
    | leaf pg P hleaf =>
      show countLoop file pS (f + 1) P (pts.map PTree.pg) rows = _
      simp only [countLoop, hleaf]
      cases pts with
      | nil =>
        simp [leafSum, leafSumL]
      | cons u rest =>
        simp only [List.map_cons]
        rw [hfet u (by simp)]
        show countLoop file pS f u.top (List.map PTree.pg rest)
          (rows + P.header.num_cells) = _
        rw [ih u rest (rows + P.header.num_cells)
          (hreps u (by simp))
          (fun v hv => hfet v (by simp [hv]))
          (fun v hv => hreps v (by simp [hv]))
          (by simp [totalSize, totalSizeL] at hsz ⊢; omega)]
        simp [leafSum, leafSumL]
        omega
    | node pg P kids hint hpush hkfet hkreps =>
      show countLoop file pS (f + 1) P (pts.map PTree.pg) rows = _
      simp only [countLoop, hint, hpush]
      have hmap : (kids.map PTree.pg).reverse ++ pts.map PTree.pg
          = (kids.reverse ++ pts).map PTree.pg := by
        simp
      rw [hmap]
      have hkne : kids ≠ [] := by
        intro hk
        rw [hk] at hpush
        exact pushPages_ne_nil P [] hpush rfl
      obtain ⟨w, ws, hw⟩ : ∃ w ws, kids.reverse ++ pts = w :: ws := by
        cases hc : kids.reverse ++ pts with
        | nil =>
          simp at hc
          exact absurd hc.1 hkne
        | cons w ws => exact ⟨w, ws, rfl⟩
      rw [hw]
      simp only [List.map_cons]
      have hmemAll : ∀ v ∈ kids.reverse ++ pts,
          fetchPage file pS v.pg = .ok v.top ∧ PageRep (fetchPage file pS) v := by
        intro v hv
        rcases List.mem_append.1 hv with hv1 | hv2
        · have hv1' : v ∈ kids := List.mem_reverse.1 hv1
          exact ⟨hkfet v hv1', hkreps v hv1'⟩
        · exact ⟨hfet v hv2, hreps v hv2⟩
      have hwmem : w ∈ kids.reverse ++ pts := by
        rw [hw]
        simp
      rw [(hmemAll w hwmem).1]
      show countLoop file pS f w.top (List.map PTree.pg ws) rows = _
      have hsz2 : totalSize w + totalSizeL ws ≤ f := by
        have h1 : totalSizeL (kids.reverse ++ pts) = totalSizeL kids + totalSizeL pts := by
          rw [totalSizeL_append, totalSizeL_reverse]
        have h2 : totalSizeL (w :: ws) = totalSize w + totalSizeL ws := by
          simp [totalSizeL]
        rw [← hw, h1] at h2
        simp [totalSize] at hsz
        omega
      rw [ih w ws rows
        ((hmemAll w hwmem).2)
        (fun v hv => (hmemAll v (by rw [hw]; simp [hv])).1)
        (fun v hv => (hmemAll v (by rw [hw]; simp [hv])).2)
        hsz2]
      have hsum : leafSum w + leafSumL ws = leafSumL kids + leafSumL pts := by
        have h2 : leafSumL (w :: ws) = leafSum w + leafSumL ws := by
          simp [leafSumL]
        rw [← hw, leafSumL_append, leafSumL_reverse] at h2
        omega
      simp [leafSum]
      omega

/-! ## Declarative descriptions of the leaf-cell processing -/

/-- A schema cell the `dot_tables` leaf loop can process without
aborting: a `TableLeaf` whose column 0 is a text value, and — when that
value is `"table"` — whose column 2 is a text value too. -/
def tablesCellOK (c : Cell) : Bool :=
  match c with
  | .TableLeaf _ _ r _ =>
    match r.values[0]? with
    | some (RecordValue.N13AndOdd s) =>
      if s = tableBytes then
        match r.values[2]? with
        | some (RecordValue.N13AndOdd _) => true
        | _ => false
      else true
    | _ => false
  | _ => false

/-- The name `dot_tables` lists for a cell, if any: column 2 of a
`"table"` row whose name lacks the `"sqlite_"` prefix. -/
def listedName (c : Cell) : Option (List Nat) :=
  match c with
  | .TableLeaf _ _ r _ =>
    match r.values[0]?, r.values[2]? with
    | some (RecordValue.N13AndOdd s), some (RecordValue.N13AndOdd n) =>
      if s = tableBytes ∧ ¬ sqlitePfx.isPrefixOf n then some n else none
    | _, _ => none
  | _ => none

/-- Join a list of names, prefixing every name with one space — exactly
the accumulation `tables.push_str(&format!(" {}", n))` performs. -/
def joinWithSpaces : List (List Nat) → List Nat
  | [] => []
  | n :: rest => (32 :: n) ++ joinWithSpaces rest

theorem joinWithSpaces_append (a b : List (List Nat)) :
    joinWithSpaces (a ++ b) = joinWithSpaces a ++ joinWithSpaces b := by
  induction a with
  | nil => simp [joinWithSpaces]
  | cons n rest ih => simp [joinWithSpaces, ih]

theorem collectNames_spec (cells : List Cell) :
    ∀ acc, (∀ c ∈ cells, tablesCellOK c = true) →
      collectNames cells acc = .ok (acc ++ joinWithSpaces (cells.filterMap listedName)) := by
  induction cells with
  | nil =>
    intro acc _
    simp [collectNames, joinWithSpaces]
  | cons c rest ih =>
    intro acc hok
    have hc := hok c (by simp)
    have hrest : ∀ d ∈ rest, tablesCellOK d = true := fun d hd => hok d (by simp [hd])
    cases c with
    | TableInterior lc k => simp [tablesCellOK] at hc
    | IndexLeaf => simp [tablesCellOK] at hc
    | IndexInterior => simp [tablesCellOK] at hc
    | TableLeaf pl k r ov =>
      cases h0 : r.values[0]? with
      | none => simp [tablesCellOK, h0] at hc
      | some v0 =>
        cases v0 with
        | N13AndOdd s =>
          by_cases hs : s = tableBytes
          · cases h2 : r.values[2]? with
            | none => simp [tablesCellOK, h0, hs, h2] at hc
            | some v2 =>
              cases v2 with
              | N13AndOdd n =>
                by_cases hp : sqlitePfx.isPrefixOf n
                · simp only [collectNames, h0, hs, if_pos rfl, h2, if_pos hp]
                  rw [ih acc hrest]
                  simp [List.filterMap_cons, listedName, h0, h2, hs, hp]
                · simp only [collectNames, h0, hs, if_pos rfl, h2, if_neg hp]
                  rw [ih (acc ++ 32 :: n) hrest]
                  simp [List.filterMap_cons, listedName, h0, h2, hs, hp, joinWithSpaces]
              | Null => simp [tablesCellOK, h0, hs, h2] at hc
              | I8 v => simp [tablesCellOK, h0, hs, h2] at hc
              | I16 v => simp [tablesCellOK, h0, hs, h2] at hc
              | I24 v => simp [tablesCellOK, h0, hs, h2] at hc
              | I32 v => simp [tablesCellOK, h0, hs, h2] at hc
              | I48 v => simp [tablesCellOK, h0, hs, h2] at hc
              | I64 v => simp [tablesCellOK, h0, hs, h2] at hc
              | F64 b => simp [tablesCellOK, h0, hs, h2] at hc
              | Zero => simp [tablesCellOK, h0, hs, h2] at hc
              | One => simp [tablesCellOK, h0, hs, h2] at hc
              | N12AndEven b => simp [tablesCellOK, h0, hs, h2] at hc
          · simp only [collectNames, h0, if_neg hs]
            rw [ih acc hrest]
            simp [List.filterMap_cons, listedName, h0, hs]
            cases h2 : r.values[2]? with
            | none => simp
            | some v2 => cases v2 <;> simp [hs]
        | Null => simp [tablesCellOK, h0] at hc
        | I8 v => simp [tablesCellOK, h0] at hc
        | I16 v => simp [tablesCellOK, h0] at hc
        | I24 v => simp [tablesCellOK, h0] at hc
        | I32 v => simp [tablesCellOK, h0] at hc
        | I48 v => simp [tablesCellOK, h0] at hc
        | I64 v => simp [tablesCellOK, h0] at hc
        | F64 b => simp [tablesCellOK, h0] at hc
        | Zero => simp [tablesCellOK, h0] at hc
        | One => simp [tablesCellOK, h0] at hc
        | N12AndEven b => simp [tablesCellOK, h0] at hc

/-- Whether a cell is the schema row `count_rows` searches for:
a `TableLeaf` whose column 0 is the text `"table"` and whose column 2
equals the requested table name. -/
def isSchemaMatch (table : List Nat) (c : Cell) : Bool :=
  match c with
  | .TableLeaf _ _ r _ =>
    match r.values[0]?, r.values[2]? with
    | some (RecordValue.N13AndOdd s), some (RecordValue.N13AndOdd n) =>
      s = tableBytes ∧ n = table
    | _, _ => false
  | _ => false

/-- The root-page value stored at column index 3 of a schema cell, for
any integer serial type (positionally consistent with the value). -/
def cellRootpage (c : Cell) : Option Int :=
  match c with
  | .TableLeaf _ _ r _ =>
    match r.serial_types[3]?, r.values[3]? with
    | some SerialType.I8, some (RecordValue.I8 rp) => some rp
    | some SerialType.I16, some (RecordValue.I16 rp) => some rp
    | some SerialType.I24, some (RecordValue.I24 rp) => some rp
    | some SerialType.I32, some (RecordValue.I32 rp) => some rp
    | some SerialType.I48, some (RecordValue.I48 rp) => some rp
    | some SerialType.I64, some (RecordValue.I64 rp) => some rp
    | _, _ => none
  | _ => none

/-- The 0-based root page `count_rows` derives from a matching schema
cell: the column-3 value cast `as u64`, minus one. -/
def cellRoot0 (c : Cell) : Nat :=
  match cellRootpage c with
  | some rp => toUInt64 rp - 1
  | none => 0

/-- A schema cell the `count_rows` search loop can process without
aborting when looking for `table`: text column 0; text column 2 when
column 0 is `"table"`; and, for the row actually matching `table`, an
integer root page at column 3 whose `as u64` value is at least 1. -/
def schemaCellOK (table : List Nat) (c : Cell) : Bool :=
  match c with
  | .TableLeaf _ _ r _ =>
    match r.values[0]? with
    | some (RecordValue.N13AndOdd s) =>
      if s = tableBytes then
        match r.values[2]? with
        | some (RecordValue.N13AndOdd n) =>
          if n = table then
            match cellRootpage c with
            | some rp => decide (1 ≤ toUInt64 rp)
            | none => false
          else true
        | _ => false
      else true
    | _ => false
  | _ => false

theorem schemaFindInCells_spec (table : List Nat) (cells : List Cell)
    (hok : ∀ c ∈ cells, schemaCellOK table c = true) :
    schemaFindInCells table cells =
      .ok ((cells.find? (isSchemaMatch table)).map cellRoot0) := by
  induction cells with
  | nil => simp [schemaFindInCells]
  | cons c rest ih =>
    have hc := hok c (by simp)
    have hrest : ∀ d ∈ rest, schemaCellOK table d = true :=
      fun d hd => hok d (by simp [hd])
    cases c with
    | TableInterior lc k => simp [schemaCellOK] at hc
    | IndexLeaf => simp [schemaCellOK] at hc
    | IndexInterior => simp [schemaCellOK] at hc
    | TableLeaf pl k r ov =>
      cases h0 : r.values[0]? with
      | none => simp [schemaCellOK, h0] at hc
      | some v0 =>
        cases v0 with
        | N13AndOdd s =>
          by_cases hs : s = tableBytes
          · cases h2 : r.values[2]? with
            | none => simp [schemaCellOK, h0, hs, h2] at hc
            | some v2 =>
              cases v2 with
              | N13AndOdd n =>
                by_cases hn : n = table
                · -- the matching row: column 3 must hold a positive integer
                  have hrp : ∃ rp, cellRootpage (.TableLeaf pl k r ov) = some rp
                      ∧ 1 ≤ toUInt64 rp := by
                    cases hcr : cellRootpage (.TableLeaf pl k r ov) with
                    | none => simp [schemaCellOK, h0, hs, h2, hn, hcr] at hc
                    | some rp =>
                      refine ⟨rp, rfl, ?_⟩
                      simp [schemaCellOK, h0, hs, h2, hn, hcr] at hc
                      exact hc
                  obtain ⟨rp, hcr, hrp1⟩ := hrp
                  have hfind : (List.find? (isSchemaMatch table)
                      (Cell.TableLeaf pl k r ov :: rest))
                      = some (.TableLeaf pl k r ov) := by
                    rw [List.find?_cons_of_pos]
                    simp [isSchemaMatch, h0, h2, hs, hn]
                  rw [hfind]
                  -- now evaluate the source loop on this cell
                  cases h3 : r.serial_types[3]? with
                  | none => simp [cellRootpage, h3] at hcr
                  | some st =>
                    cases st with
                    | I8 =>
                      cases h4 : r.values[3]? with
                      | none => simp [cellRootpage, h3, h4] at hcr
                      | some v4 =>
                        cases v4 <;> simp [cellRootpage, h3, h4] at hcr
                        rename_i rp2
                        simp only [schemaFindInCells, h0, h2, h3, h4, hs, hn,
                          if_pos rfl]
                        rw [← hcr] at hrp1
                        rw [if_neg (show ¬ toUInt64 rp2 = 0 from by omega)]
                        simp [cellRoot0, cellRootpage, h3, h4]
                    | I16 =>
                      cases h4 : r.values[3]? with
                      | none => simp [cellRootpage, h3, h4] at hcr
                      | some v4 =>
                        cases v4 <;> simp [cellRootpage, h3, h4] at hcr
                        rename_i rp2
                        simp only [schemaFindInCells, h0, h2, h3, h4, hs, hn,
                          if_pos rfl]
                        rw [← hcr] at hrp1
                        rw [if_neg (show ¬ toUInt64 rp2 = 0 from by omega)]
                        simp [cellRoot0, cellRootpage, h3, h4]
                    | I24 =>
                      cases h4 : r.values[3]? with
                      | none => simp [cellRootpage, h3, h4] at hcr
                      | some v4 =>
                        cases v4 <;> simp [cellRootpage, h3, h4] at hcr
                        rename_i rp2
                        simp only [schemaFindInCells, h0, h2, h3, h4, hs, hn,
                          if_pos rfl]
                        rw [← hcr] at hrp1
                        rw [if_neg (show ¬ toUInt64 rp2 = 0 from by omega)]
                        simp [cellRoot0, cellRootpage, h3, h4]
                    | I32 =>
                      cases h4 : r.values[3]? with
                      | none => simp [cellRootpage, h3, h4] at hcr
                      | some v4 =>
                        cases v4 <;> simp [cellRootpage, h3, h4] at hcr
                        rename_i rp2
                        simp only [schemaFindInCells, h0, h2, h3, h4, hs, hn,
                          if_pos rfl]
                        rw [← hcr] at hrp1
                        rw [if_neg (show ¬ toUInt64 rp2 = 0 from by omega)]
                        simp [cellRoot0, cellRootpage, h3, h4]
                    | I48 =>
                      cases h4 : r.values[3]? with
                      | none => simp [cellRootpage, h3, h4] at hcr
                      | some v4 =>
                        cases v4 <;> simp [cellRootpage, h3, h4] at hcr
                        rename_i rp2
                        simp only [schemaFindInCells, h0, h2, h3, h4, hs, hn,
                          if_pos rfl]
                        rw [← hcr] at hrp1
                        rw [if_neg (show ¬ toUInt64 rp2 = 0 from by omega)]
                        simp [cellRoot0, cellRootpage, h3, h4]
                    | I64 =>
                      cases h4 : r.values[3]? with
                      | none => simp [cellRootpage, h3, h4] at hcr
                      | some v4 =>
                        cases v4 <;> simp [cellRootpage, h3, h4] at hcr
                        rename_i rp2
                        simp only [schemaFindInCells, h0, h2, h3, h4, hs, hn,
                          if_pos rfl]
                        rw [← hcr] at hrp1
                        rw [if_neg (show ¬ toUInt64 rp2 = 0 from by omega)]
                        simp [cellRoot0, cellRootpage, h3, h4]
                    | Null => simp [cellRootpage, h3] at hcr
                    | F64 => simp [cellRootpage, h3] at hcr
                    | Zero => simp [cellRootpage, h3] at hcr
                    | One => simp [cellRootpage, h3] at hcr
                    | N12AndEven m => simp [cellRootpage, h3] at hcr
                    | N13AndOdd m => simp [cellRootpage, h3] at hcr
                · -- name mismatch: skip this cell
                  simp only [schemaFindInCells, h0, h2, hs, if_pos rfl, if_neg hn]
                  rw [ih hrest]
                  have : isSchemaMatch table (.TableLeaf pl k r ov) = false := by
                    simp [isSchemaMatch, h0, h2, hn]
                  rw [List.find?_cons_of_neg _ (by simp [this])]
                  simp
              | Null => simp [schemaCellOK, h0, hs, h2] at hc
              | I8 v => simp [schemaCellOK, h0, hs, h2] at hc
              | I16 v => simp [schemaCellOK, h0, hs, h2] at hc
              | I24 v => simp [schemaCellOK, h0, hs, h2] at hc
              | I32 v => simp [schemaCellOK, h0, hs, h2] at hc
              | I48 v => simp [schemaCellOK, h0, hs, h2] at hc
              | I64 v => simp [schemaCellOK, h0, hs, h2] at hc
              | F64 b => simp [schemaCellOK, h0, hs, h2] at hc
              | Zero => simp [schemaCellOK, h0, hs, h2] at hc
              | One => simp [schemaCellOK, h0, hs, h2] at hc
              | N12AndEven b => simp [schemaCellOK, h0, hs, h2] at hc
          · -- column 0 is not "table": skip this cell
            simp only [schemaFindInCells, h0, if_neg hs]
            rw [ih hrest]
            have : isSchemaMatch table (.TableLeaf pl k r ov) = false := by
              cases h2 : r.values[2]? with
              | none => simp [isSchemaMatch, h0, h2]
              | some v2 => cases v2 <;> simp [isSchemaMatch, h0, h2, hs]
            rw [List.find?_cons_of_neg _ (by simp [this])]
        | Null => simp [schemaCellOK, h0] at hc
        | I8 v => simp [schemaCellOK, h0] at hc
        | I16 v => simp [schemaCellOK, h0] at hc
        | I24 v => simp [schemaCellOK, h0] at hc
        | I32 v => simp [schemaCellOK, h0] at hc
        | I48 v => simp [schemaCellOK, h0] at hc
        | I64 v => simp [schemaCellOK, h0] at hc
        | F64 b => simp [schemaCellOK, h0] at hc
        | Zero => simp [schemaCellOK, h0] at hc
        | One => simp [schemaCellOK, h0] at hc
        | N12AndEven b => simp [schemaCellOK, h0] at hc

theorem findAppend {α : Type} (p : α → Bool) (a b : List α) :
    (a ++ b).find? p = match a.find? p with
      | some x => some x
      | none => b.find? p := by
  induction a with
  | nil => simp
  | cons x xs ih =>
    by_cases hx : p x
    · simp [List.find?_cons_of_pos _ hx]
    · simp only [List.cons_append, List.find?_cons_of_neg _ hx, ih]

theorem schemaLoop_spec (file : List Nat) (pS : Nat) (table : List Nat) :
    ∀ fuel (t : PTree) (pts : List PTree),
      PageRep (fetchPage file pS) t →
      (∀ u ∈ pts, fetchPage file pS u.pg = .ok u.top) →
      (∀ u ∈ pts, PageRep (fetchPage file pS) u) →
      (∀ c ∈ visitCells t ++ visitCellsOf pts, schemaCellOK table c = true) →
      totalSize t + totalSizeL pts ≤ fuel →
      schemaLoop file pS table fuel t.top (pts.map PTree.pg)
        = (match (visitCells t ++ visitCellsOf pts).find? (isSchemaMatch table) with
          | some c => .ok (cellRoot0 c)
          | none => .error "Table not found in database") := by
  intro fuel
  induction fuel with
  | zero =>
    intro t pts _ _ _ _ hsz
    have := totalSize_pos t
    omega
  | succ f ih =>
    intro t pts hrep hfet hreps hcells hsz
    cases hrep with
    | leaf pg P hleaf =>
      show schemaLoop file pS table (f + 1) P (pts.map PTree.pg) = _
      simp only [schemaLoop, hleaf]
      have hPcells : visitCells (.leaf pg P) = P.cells := rfl
      have hfind := schemaFindInCells_spec table P.cells
        (fun c hc => hcells c (by rw [hPcells] at hcells ⊢; simp [hc]))
      rw [hfind]
      rw [hPcells] at hcells ⊢
      rw [findAppend]
      cases hf : P.cells.find? (isSchemaMatch table) with
      | some c =>
        simp
      | none =>
        simp only [Option.map_none]
        cases pts with
        | nil =>
          simp [visitCellsOf]
        | cons u rest =>
          simp only [List.map_cons]
          rw [hfet u (by simp)]
          show schemaLoop file pS table f u.top (List.map PTree.pg rest) = _
          rw [ih u rest
            (hreps u (by simp))
            (fun v hv => hfet v (by simp [hv]))
            (fun v hv => hreps v (by simp [hv]))
            (fun c hc => hcells c (by simp [visitCellsOf] at hc ⊢; tauto))
            (by simp [totalSize, totalSizeL] at hsz ⊢; omega)]
          simp [visitCellsOf]
    | node pg P kids hint hpush hkfet hkreps =>
      show schemaLoop file pS table (f + 1) P (pts.map PTree.pg) = _
      simp only [schemaLoop, hint, hpush]
      have hmap : (kids.map PTree.pg).reverse ++ pts.map PTree.pg
          = (kids.reverse ++ pts).map PTree.pg := by
        simp
      rw [hmap]
      have hkne : kids ≠ [] := by
        intro hk
        rw [hk] at hpush
        exact pushPages_ne_nil P [] hpush rfl
      obtain ⟨w, ws, hw⟩ : ∃ w ws, kids.reverse ++ pts = w :: ws := by
        cases hc : kids.reverse ++ pts with
        | nil =>
          simp at hc
          exact absurd hc.1 hkne
        | cons w ws => exact ⟨w, ws, rfl⟩
      rw [hw]
      simp only [List.map_cons]
      have hmemAll : ∀ v ∈ kids.reverse ++ pts,
          fetchPage file pS v.pg = .ok v.top ∧ PageRep (fetchPage file pS) v := by
        intro v hv
        rcases List.mem_append.1 hv with hv1 | hv2
        · have hv1' : v ∈ kids := List.mem_reverse.1 hv1
          exact ⟨hkfet v hv1', hkreps v hv1'⟩
        · exact ⟨hfet v hv2, hreps v hv2⟩
      have hwmem : w ∈ kids.reverse ++ pts := by
        rw [hw]
        simp
      rw [(hmemAll w hwmem).1]
      show schemaLoop file pS table f w.top (List.map PTree.pg ws) = _
      have hvis : visitCells (.node pg P kids) ++ visitCellsOf pts
          = visitCells w ++ visitCellsOf ws := by
        have h1 : visitCells (.node pg P kids) = visitCellsOf kids.reverse := by
          simp [visitCells, visitCellsRev_eq_visitCellsOf_reverse]
        rw [h1, ← visitCellsOf_append, hw]
        simp [visitCellsOf]
      have hsz2 : totalSize w + totalSizeL ws ≤ f := by
        have h1 : totalSizeL (kids.reverse ++ pts) = totalSizeL kids + totalSizeL pts := by
          rw [totalSizeL_append, totalSizeL_reverse]
        have h2 : totalSizeL (w :: ws) = totalSize w + totalSizeL ws := by
          simp [totalSizeL]
        rw [← hw, h1] at h2
        simp [totalSize] at hsz
        omega
      rw [ih w ws
        ((hmemAll w hwmem).2)
        (fun v hv => (hmemAll v (by rw [hw]; simp [hv])).1)
        (fun v hv => (hmemAll v (by rw [hw]; simp [hv])).2)
        (fun c hc => hcells c (by rw [hvis]; exact hc))
        hsz2]
      rw [hvis]

theorem tablesLoop_spec (file : List Nat) (pS : Nat) :
    ∀ fuel (t : PTree) (pts : List PTree) (acc : List Nat),
      PageRep (fetchPage file pS) t →
      (∀ u ∈ pts, fetchPage file pS u.pg = .ok u.top) →
      (∀ u ∈ pts, PageRep (fetchPage file pS) u) →
      (∀ c ∈ visitCells t ++ visitCellsOf pts, tablesCellOK c = true) →
      totalSize t + totalSizeL pts ≤ fuel →
      tablesLoop file pS fuel t.top (pts.map PTree.pg) acc
        = .ok (asciiTrim (acc ++ joinWithSpaces
            (((visitCells t ++ visitCellsOf pts).filterMap listedName)))) := by
  intro fuel
  induction fuel with
  | zero =>
    intro t pts acc _ _ _ _ hsz
    have := totalSize_pos t
    omega
  | succ f ih =>
    intro t pts acc hrep hfet hreps hcells hsz
    cases hrep with
    | leaf pg P hleaf =>
      show tablesLoop file pS (f + 1) P (pts.map PTree.pg) acc = _
      simp only [tablesLoop, hleaf]
      have hPcells : visitCells (.leaf pg P) = P.cells := rfl
      rw [hPcells] at hcells ⊢
      rw [collectNames_spec P.cells acc (fun c hc => hcells c (by simp [hc]))]
      cases pts with
      | nil =>
        simp [visitCellsOf]
      | cons u rest =>
        simp only [List.map_cons]
        rw [hfet u (by simp)]
        show tablesLoop file pS f u.top (List.map PTree.pg rest)
          (acc ++ joinWithSpaces (P.cells.filterMap listedName)) = _
        rw [ih u rest (acc ++ joinWithSpaces (P.cells.filterMap listedName))
          (hreps u (by simp))
          (fun v hv => hfet v (by simp [hv]))
          (fun v hv => hreps v (by simp [hv]))
          (fun c hc => hcells c (by simp [visitCellsOf] at hc ⊢; tauto))
          (by simp [totalSize, totalSizeL] at hsz ⊢; omega)]
        simp [visitCellsOf, List.filterMap_append, joinWithSpaces_append]
    | node pg P kids hint hpush hkfet hkreps =>
      show tablesLoop file pS (f + 1) P (pts.map PTree.pg) acc = _
      simp only [tablesLoop, hint, hpush]
      have hmap : (kids.map PTree.pg).reverse ++ pts.map PTree.pg
          = (kids.reverse ++ pts).map PTree.pg := by
        simp
      rw [hmap]
      have hkne : kids ≠ [] := by
        intro hk
        rw [hk] at hpush
        exact pushPages_ne_nil P [] hpush rfl
      obtain ⟨w, ws, hw⟩ : ∃ w ws, kids.reverse ++ pts = w :: ws := by
        cases hc : kids.reverse ++ pts with
        | nil =>
          simp at hc
          exact absurd hc.1 hkne
        | cons w ws => exact ⟨w, ws, rfl⟩
      rw [hw]
      simp only [List.map_cons]
      have hmemAll : ∀ v ∈ kids.reverse ++ pts,
          fetchPage file pS v.pg = .ok v.top ∧ PageRep (fetchPage file pS) v := by
        intro v hv
        rcases List.mem_append.1 hv with hv1 | hv2
        · have hv1' : v ∈ kids := List.mem_reverse.1 hv1
          exact ⟨hkfet v hv1', hkreps v hv1'⟩
        · exact ⟨hfet v hv2, hreps v hv2⟩
      have hwmem : w ∈ kids.reverse ++ pts := by
        rw [hw]
        simp
      rw [(hmemAll w hwmem).1]
      show tablesLoop file pS f w.top (List.map PTree.pg ws) acc = _
      have hvis : visitCells (.node pg P kids) ++ visitCellsOf pts
          = visitCells w ++ visitCellsOf ws := by
        have h1 : visitCells (.node pg P kids) = visitCellsOf kids.reverse := by
          simp [visitCells, visitCellsRev_eq_visitCellsOf_reverse]
        rw [h1, ← visitCellsOf_append, hw]
        simp [visitCellsOf]
      have hsz2 : totalSize w + totalSizeL ws ≤ f := by
        have h1 : totalSizeL (kids.reverse ++ pts) = totalSizeL kids + totalSizeL pts := by
          rw [totalSizeL_append, totalSizeL_reverse]
        have h2 : totalSizeL (w :: ws) = totalSize w + totalSizeL ws := by
          simp [totalSizeL]
        rw [← hw, h1] at h2
        simp [totalSize] at hsz
        omega
      rw [ih w ws acc
        ((hmemAll w hwmem).2)
        (fun v hv => (hmemAll v (by rw [hw]; simp [hv])).1)
        (fun v hv => (hmemAll v (by rw [hw]; simp [hv])).2)
        (fun c hc => hcells c (by rw [hvis]; exact hc))
        hsz2]
      rw [hvis]

/-! ## Trimming the accumulated name string -/

theorem joinWithSpaces_last (names : List (List Nat)) :
    names ≠ [] → (∀ n ∈ names, n ≠ [] ∧ ∀ b ∈ n, isWsByte b = false) →
    ∃ l b, joinWithSpaces names = l ++ [b] ∧ isWsByte b = false := by
  induction names with
  | nil => intro h _; exact absurd rfl h
  | cons n rest ih =>
    intro _ hok
    cases rest with
    | nil =>
      obtain ⟨hne, hnb⟩ := hok n (by simp)
      rcases List.eq_nil_or_concat n with hcon | ⟨l, b, hcon⟩
      · exact absurd hcon hne
      · refine ⟨32 :: l, b, ?_, hnb b (by simp [hcon])⟩
        simp [joinWithSpaces, hcon]
    | cons m rest2 =>
      obtain ⟨l, b, hjoin, hb⟩ := ih (by simp)
        (fun v hv => hok v (by simp at hv ⊢; tauto))
      refine ⟨32 :: n ++ l, b, ?_, hb⟩
      show (32 :: n) ++ joinWithSpaces (m :: rest2) = _
      rw [hjoin]
      simp

theorem trimRight_concat (l : List Nat) (b : Nat) (hb : isWsByte b = false) :
    ((l ++ [b]).reverse.dropWhile isWsByte).reverse = l ++ [b] := by
  rw [List.reverse_append]
  simp [List.dropWhile, hb]

theorem intercalate_space_eq (names : List (List Nat)) (n : List Nat) :
    List.intercalate [32] (n :: names) = n ++ joinWithSpaces names := by
  induction names generalizing n with
  | nil => simp [joinWithSpaces, List.intercalate, List.intersperse]
  | cons m rest ih =>
    have h1 : List.intercalate [32] (n :: m :: rest)
        = n ++ [32] ++ List.intercalate [32] (m :: rest) := by
      simp [List.intercalate, List.intersperse]
    rw [h1, ih m]
    simp [joinWithSpaces]

theorem asciiTrim_joinWithSpaces (names : List (List Nat))
    (h : ∀ n ∈ names, n ≠ [] ∧ ∀ b ∈ n, isWsByte b = false) :
    asciiTrim (joinWithSpaces names) = List.intercalate [32] names := by
  cases names with
  | nil => simp [asciiTrim, joinWithSpaces, List.intercalate, List.intersperse]
  | cons n rest =>
    rw [intercalate_space_eq]
    obtain ⟨hne, hnb⟩ := h n (by simp)
    obtain ⟨b0, n', hn⟩ : ∃ b0 n', n = b0 :: n' := by
      cases n with
      | nil => exact absurd rfl hne
      | cons b0 n' => exact ⟨b0, n', rfl⟩
    have hb0 : isWsByte b0 = false := hnb b0 (by simp [hn])
    have hstep1 : (joinWithSpaces (n :: rest)).dropWhile isWsByte = n ++ joinWithSpaces rest := by
      show ((32 :: n) ++ joinWithSpaces rest).dropWhile isWsByte = _
      rw [hn]
      simp only [List.cons_append, List.dropWhile]
      rw [show isWsByte 32 = true from rfl, hb0]
      simp
    unfold asciiTrim
    rw [hstep1]
    cases rest with
    | nil =>
      rcases List.eq_nil_or_concat n with hcon | ⟨l, b, hcon⟩
      · exact absurd hcon hne
      · rw [List.concat_eq_append] at hcon
        have hb : isWsByte b = false := hnb b (by simp [hcon])
        simp only [joinWithSpaces, List.append_nil]
        rw [hcon]
        exact trimRight_concat l b hb
    | cons m rest2 =>
      obtain ⟨l, b, hjoin, hb⟩ := joinWithSpaces_last (m :: rest2) (by simp)
        (fun v hv => h v (by simp at hv ⊢; tauto))
      rw [hjoin, ← List.append_assoc]
      exact trimRight_concat (n ++ l) b hb

/-! ## Claims about the walkers (C1, C3, C8) -/

theorem forallMemPair {α : Type} {P : α → Prop} {a b : α} (ha : P a) (hb : P b) :
    ∀ x ∈ [a, b], P x := by
  intro x hx
  simp at hx
  rcases hx with h | h <;> subst h <;> assumption

/-- C3: `dot_tables` returns exactly the column-2 names of the schema
cells whose column 0 is `"table"` and whose name lacks the `"sqlite_"`
prefix, taken in the traversal's visitation order — an interior page
pushes each cell's left child in cell-array order and then the
right-most child onto a LIFO stack, so its children are visited
last-pushed-first (`visitCells`) — joined by single spaces with the
surrounding whitespace trimmed (`List.intercalate [32]` on ASCII
names). -/
theorem c3_dot_tables (file : List Nat) (fuel : Nat) (hdr : DbHeader)
    (page0 : List Nat) (S : PTree)
    (hlen : 100 ≤ file.length)
    (hH : DbHeader.parse (file.take 100) = .ok hdr)
    (hp0 : readExactAt file hdr.page_size 0 = .ok page0)
    (hroot : BTreePage.parse (page0.drop 100) true = .ok S.top)
    (hrep : PageRep (fetchPage file hdr.page_size) S)
    (hcells : ∀ c ∈ visitCells S, tablesCellOK c = true)
    (hnames : ∀ n ∈ (visitCells S).filterMap listedName,
      n ≠ [] ∧ ∀ b ∈ n, isWsByte b = false)
    (hfuel : totalSize S < fuel) :
    dot_tables file fuel = .ok (List.intercalate [32] ((visitCells S).filterMap listedName)) := by
  unfold dot_tables
  have h100 : readExactAt file 100 0 = .ok (file.take 100) := by
    unfold readExactAt
    rw [if_pos (by omega)]
    simp
  simp only [h100, hH, hp0, hroot]
  show tablesLoop file hdr.page_size fuel S.top [] [] = _
  have hts := tablesLoop_spec file hdr.page_size fuel S [] []
    hrep (by simp) (by simp)
    (by simpa [visitCellsOf] using hcells)
    (by simp [totalSizeL]; omega)
  simp only [List.map_nil] at hts
  rw [hts]
  simp only [visitCellsOf, List.append_nil, List.nil_append]
  rw [asciiTrim_joinWithSpaces _ hnames]

/-- C1: `count_rows` walks the schema tree from page 1 for the first
leaf cell (in visitation order) whose column 0 is `"table"` and whose
column 2 equals the requested name, reads the table's root page from
column index 3 (any integer serial type), then walks the B-tree rooted
at that page and returns `leafSum` of that tree — the sum of `num_cells`
over every leaf-table page, each counted exactly once, with
interior-table pages contributing 0 and pushing all their children.  If
the traversal stack empties without a matching schema row it fails with
the "Table not found in database" error — a returned error value, not a
crash. -/
theorem c1_count_rows (file table : List Nat) (fuel : Nat) (hdr : DbHeader)
    (page0 : List Nat) (S : PTree)
    (hlen : 100 ≤ file.length)
    (hH : DbHeader.parse (file.take 100) = .ok hdr)
    (hp0 : readExactAt file hdr.page_size 0 = .ok page0)
    (hroot : BTreePage.parse (page0.drop 100) true = .ok S.top)
    (hrep : PageRep (fetchPage file hdr.page_size) S)
    (hcells : ∀ c ∈ visitCells S, schemaCellOK table c = true)
    (hfuel : totalSize S < fuel) :
    (∀ c, (visitCells S).find? (isSchemaMatch table) = some c →
      ∀ T : PTree, fetchPage file hdr.page_size (cellRoot0 c) = .ok T.top →
        PageRep (fetchPage file hdr.page_size) T →
        totalSize T ≤ fuel →
        count_rows table file fuel = .ok (leafSum T)) ∧
    ((visitCells S).find? (isSchemaMatch table) = none →
      count_rows table file fuel = .error "Table not found in database") := by
  have h100 : readExactAt file 100 0 = .ok (file.take 100) := by
    unfold readExactAt
    rw [if_pos (by omega)]
    simp
  have hsl := schemaLoop_spec file hdr.page_size table fuel S []
    hrep (by simp) (by simp)
    (by simpa [visitCellsOf] using hcells)
    (by simp [totalSizeL]; omega)
  simp only [List.map_nil, visitCellsOf, List.append_nil] at hsl
  constructor
  · intro c hfind T hfetch hrepT hfuelT
    unfold count_rows
    simp only [h100, hH, hp0, hroot]
    rw [hsl, hfind]
    show (match fetchPage file hdr.page_size (cellRoot0 c) with
      | Except.error e => Except.error e
      | Except.ok b => countLoop file hdr.page_size fuel b [] 0) = _
    rw [hfetch]
    show countLoop file hdr.page_size fuel T.top [] 0 = _
    have hcl := countLoop_spec file hdr.page_size fuel T [] 0
      hrepT (by simp) (by simp) (by simp [totalSizeL]; omega)
    simp only [List.map_nil] at hcl
    rw [hcl]
    simp [leafSumL]
  · intro hfind
    unfold count_rows
    simp only [h100, hH, hp0, hroot]
    rw [hsl, hfind]

/-! ## Concrete databases for the witnesses -/

/-- UTF-8 bytes of `"apples"`. -/
def applesBytes : List Nat := [97, 112, 112, 108, 101, 115]

/-- UTF-8 bytes of `"oranges"`. -/
def orangesBytes : List Nat := [111, 114, 97, 110, 103, 101, 115]

/-- UTF-8 bytes of `"grapes"` — a name no sample schema contains. -/
def grapesBytes : List Nat := [103, 114, 97, 112, 101, 115]

/-- A valid 100-byte database header with page size 512 and the given
text-encoding byte. -/
def sampleDbHeader (enc : Nat) : List Nat :=
  MAGIC ++ [2, 0] ++ [1, 1, 0, 64, 32, 32] ++ List.replicate 32 0 ++
    [0, 0, 0, enc] ++ List.replicate 40 0

/-- A single-page database (512 bytes): the schema page is a leaf-table
page with two cells, the tables `apples` (root page 2) and `oranges`
(root page 3).  Stored cell pointers are 112 and 140 (region offsets 12
and 40 plus the first-page correction). -/
def sampleDb (enc : Nat) : List Nat :=
  sampleDbHeader enc ++
  [13, 0, 0, 0, 2, 0, 0, 0, 0, 112, 0, 140] ++
  [23, 1, 5, 23, 25, 25, 1] ++ tableBytes ++ applesBytes ++ applesBytes ++ [2] ++
  [0, 0, 0] ++
  [25, 2, 5, 23, 27, 27, 1] ++ tableBytes ++ orangesBytes ++ orangesBytes ++ [3] ++
  List.replicate 345 0

/-- A junk default header, used only to name concrete parse results. -/
def defaultDbHeader : DbHeader :=
  ⟨[], 512, 1, 1, 0, 64, 32, 32, 0, 0, 0, 0, 0, 0, 0, none, 1, 0, false, 0, 0, 0⟩

def sampleHdr : DbHeader := getOk defaultDbHeader (DbHeader.parse ((sampleDb 1).take 100))

def samplePage0 : BTreePage :=
  getOk defaultPage (BTreePage.parse (((sampleDb 1).take 512).drop 100) true)

def sampleSchema : PTree := .leaf 0 samplePage0

set_option maxRecDepth 100000 in
theorem c3_dot_tables_witness :
    dot_tables (sampleDb 1) 10 = .ok (applesBytes ++ 32 :: orangesBytes) := by
  have h := c3_dot_tables (sampleDb 1) 10 sampleHdr ((sampleDb 1).take 512) sampleSchema
    (by decide) (by rfl) (by rfl) (by rfl)
    (PageRep.leaf 0 samplePage0 (by rfl))
    (by decide) (by decide) (by decide)
  exact h.trans (by rfl)

set_option maxRecDepth 100000

/-- Claim C8 counterexample: the header of `sampleDb 2` declares text
encoding 2 (UTF-16LE), yet `dot_tables` succeeds and returns the table
names decoded as UTF-8 — no `UnsupportedError` is raised, because
`RecordValue::parse` never consults `db_text_encoding`. -/
theorem c8_counterexample :
    (DbHeader.parse ((sampleDb 2).take 100)).map DbHeader.db_text_encoding =
      .ok 2 ∧
    dot_tables (sampleDb 2) 10 = .ok (applesBytes ++ 32 :: orangesBytes) := by
  constructor
  · rfl
  · rfl

/-- Claim C8 (amended): text column values are always decoded as UTF-8,
regardless of the header's declared text encoding.  The declared
encoding is parsed into `db_text_encoding` but never consulted by record
decoding: for every declared encoding 1 (UTF-8), 2 (UTF-16LE) or
3 (UTF-16BE), `dot_tables` succeeds with identical UTF-8-decoded output
and never fails with an `UnsupportedError`. -/
theorem c8_text_always_utf8 (e : Nat) (h1 : 1 ≤ e) (h3 : e ≤ 3) :
    ∃ hdr : DbHeader, DbHeader.parse ((sampleDb e).take 100) = .ok hdr ∧
      hdr.db_text_encoding = e ∧
      dot_tables (sampleDb e) 10 = .ok (applesBytes ++ 32 :: orangesBytes) := by
  interval_cases e
  · exact ⟨_, rfl, rfl, rfl⟩
  · exact ⟨_, rfl, rfl, rfl⟩
  · exact ⟨_, rfl, rfl, rfl⟩

theorem c8_text_always_utf8_witness :
    ∃ hdr : DbHeader, DbHeader.parse ((sampleDb 3).take 100) = .ok hdr ∧
      hdr.db_text_encoding = 3 ∧
      dot_tables (sampleDb 3) 10 = .ok (applesBytes ++ 32 :: orangesBytes) :=
  c8_text_always_utf8 3 (by decide) (by decide)

/-! ## An 8-page database with a 3-level table B-tree -/

/-- `readExactAt` on a file split as `pre ++ s ++ post` returns exactly
the middle slice when the offset and length line up. -/
theorem readExactAt_middle (file pre s post : List Nat) (len off : Nat)
    (hfile : file = pre ++ (s ++ post)) (hpre : pre.length = off)
    (hs : s.length = len) :
    readExactAt file len off = .ok s := by
  subst hfile
  subst hpre
  subst hs
  unfold readExactAt
  rw [if_pos (by simp [List.length_append])]
  rw [List.drop_left, List.take_left]

/-- Fetching page `p` of a file split as `pre ++ s ++ post`, where `pre`
covers exactly the first `p` pages and `s` is one page, parses `s`. -/
theorem fetchPage_middle (file pre s post : List Nat) (pS p : Nat)
    (hfile : file = pre ++ (s ++ post)) (hpre : pre.length = p * pS)
    (hs : s.length = pS) :
    fetchPage file pS p = BTreePage.parse s false := by
  unfold fetchPage
  rw [readExactAt_middle file pre s post pS (p * pS) hfile hpre hs]

/-- The B-tree region of the schema page (412 bytes): a leaf-table page
with one cell listing table `apples` with root page 2. -/
def c1Page0Body : List Nat :=
  [13, 0, 0, 0, 1, 0, 0, 0, 0, 110] ++
  [23, 1, 5, 23, 25, 25, 1] ++ tableBytes ++ applesBytes ++ applesBytes ++ [2] ++
  List.replicate 377 0

/-- The full first page (512 bytes): database header plus schema region. -/
def c1Page0Raw : List Nat := sampleDbHeader 1 ++ c1Page0Body

/-- An interior-table page (512 bytes): one cell with left child `child`
and right-most pointer `rm` (both 1-based page numbers). -/
def c1Interior (child rm : Nat) : List Nat :=
  [5, 0, 0, 0, 1, 0, 0, 0, 0, 0, 0, rm] ++ [0, 14] ++
  [0, 0, 0, child, 1] ++ List.replicate 493 0

/-- Leaf-table pages (512 bytes) with 1, 2, 3 and 4 minimal one-Null
cells `[2, rowid, 2, 0]`. -/
def c1Leaf1 : List Nat :=
  [13, 0, 0, 0, 1, 0, 0, 0] ++ [0, 10] ++ [2, 1, 2, 0] ++ List.replicate 498 0

def c1Leaf2 : List Nat :=
  [13, 0, 0, 0, 2, 0, 0, 0] ++ [0, 12, 0, 16] ++
  [2, 1, 2, 0] ++ [2, 2, 2, 0] ++ List.replicate 492 0

def c1Leaf3 : List Nat :=
  [13, 0, 0, 0, 3, 0, 0, 0] ++ [0, 14, 0, 18, 0, 22] ++
  [2, 1, 2, 0] ++ [2, 2, 2, 0] ++ [2, 3, 2, 0] ++ List.replicate 486 0

def c1Leaf4 : List Nat :=
  [13, 0, 0, 0, 4, 0, 0, 0] ++ [0, 16, 0, 20, 0, 24, 0, 28] ++
  [2, 1, 2, 0] ++ [2, 2, 2, 0] ++ [2, 3, 2, 0] ++ [2, 4, 2, 0] ++
  List.replicate 480 0

/-- An 8-page 512-byte-page database: page 1 (index 0) is the schema
leaf listing `apples` with root page 2; pages 2-4 (indices 1-3) form a
3-level interior skeleton (index 1 has children 3 and 4; index 2 has
children 5 and 6; index 3 has children 7 and 8, all 1-based); pages 5-8
(indices 4-7) are leaves with 1, 2, 3 and 4 rows. -/
def c1Db : List Nat :=
  c1Page0Raw ++ c1Interior 3 4 ++ c1Interior 5 6 ++ c1Interior 7 8 ++
  c1Leaf1 ++ c1Leaf2 ++ c1Leaf3 ++ c1Leaf4

theorem sampleDbHeader_len (e : Nat) : (sampleDbHeader e).length = 100 := by
  simp [sampleDbHeader, MAGIC]

theorem c1Page0Body_len : c1Page0Body.length = 412 := by
  simp [c1Page0Body, tableBytes, applesBytes]

theorem c1Page0Raw_len : c1Page0Raw.length = 512 := by
  simp [c1Page0Raw, sampleDbHeader_len, c1Page0Body_len]

theorem c1Interior_len (child rm : Nat) : (c1Interior child rm).length = 512 := by
  simp [c1Interior]

theorem c1Leaf1_len : c1Leaf1.length = 512 := by
  simp [c1Leaf1]

theorem c1Leaf2_len : c1Leaf2.length = 512 := by
  simp [c1Leaf2]

theorem c1Leaf3_len : c1Leaf3.length = 512 := by
  simp [c1Leaf3]

theorem c1Leaf4_len : c1Leaf4.length = 512 := by
  simp [c1Leaf4]

def c1Hdr : DbHeader := getOk defaultDbHeader (DbHeader.parse (sampleDbHeader 1))

def c1Page0 : BTreePage := getOk defaultPage (BTreePage.parse c1Page0Body true)

def c1Schema : PTree := .leaf 0 c1Page0

def c1P1 : BTreePage := getOk defaultPage (BTreePage.parse (c1Interior 3 4) false)

def c1P2 : BTreePage := getOk defaultPage (BTreePage.parse (c1Interior 5 6) false)

def c1P3 : BTreePage := getOk defaultPage (BTreePage.parse (c1Interior 7 8) false)

def c1P4 : BTreePage := getOk defaultPage (BTreePage.parse c1Leaf1 false)

def c1P5 : BTreePage := getOk defaultPage (BTreePage.parse c1Leaf2 false)

def c1P6 : BTreePage := getOk defaultPage (BTreePage.parse c1Leaf3 false)

def c1P7 : BTreePage := getOk defaultPage (BTreePage.parse c1Leaf4 false)

/-- The abstraction of the `apples` B-tree rooted at page index 1. -/
def c1Tree : PTree :=
  .node 1 c1P1
    [.node 2 c1P2 [.leaf 4 c1P4, .leaf 5 c1P5],
     .node 3 c1P3 [.leaf 6 c1P6, .leaf 7 c1P7]]

theorem c1_fetch1 : fetchPage c1Db 512 1 = .ok c1P1 := by
  rw [fetchPage_middle c1Db c1Page0Raw (c1Interior 3 4)
    (c1Interior 5 6 ++ c1Interior 7 8 ++ c1Leaf1 ++ c1Leaf2 ++ c1Leaf3 ++ c1Leaf4)
    512 1
    (by simp only [c1Db, List.append_assoc])
    (by simp [c1Page0Raw_len]) (c1Interior_len 3 4)]
  rfl

theorem c1_fetch2 : fetchPage c1Db 512 2 = .ok c1P2 := by
  rw [fetchPage_middle c1Db (c1Page0Raw ++ c1Interior 3 4) (c1Interior 5 6)
    (c1Interior 7 8 ++ c1Leaf1 ++ c1Leaf2 ++ c1Leaf3 ++ c1Leaf4)
    512 2
    (by simp only [c1Db, List.append_assoc])
    (by simp [List.length_append, c1Page0Raw_len, c1Interior_len])
    (c1Interior_len 5 6)]
  rfl

theorem c1_fetch3 : fetchPage c1Db 512 3 = .ok c1P3 := by
  rw [fetchPage_middle c1Db (c1Page0Raw ++ c1Interior 3 4 ++ c1Interior 5 6)
    (c1Interior 7 8) (c1Leaf1 ++ c1Leaf2 ++ c1Leaf3 ++ c1Leaf4)
    512 3
    (by simp only [c1Db, List.append_assoc])
    (by simp [List.length_append, c1Page0Raw_len, c1Interior_len])
    (c1Interior_len 7 8)]
  rfl

theorem c1_fetch4 : fetchPage c1Db 512 4 = .ok c1P4 := by
  rw [fetchPage_middle c1Db
    (c1Page0Raw ++ c1Interior 3 4 ++ c1Interior 5 6 ++ c1Interior 7 8)
    c1Leaf1 (c1Leaf2 ++ c1Leaf3 ++ c1Leaf4)
    512 4
    (by simp only [c1Db, List.append_assoc])
    (by simp [List.length_append, c1Page0Raw_len, c1Interior_len])
    c1Leaf1_len]
  rfl

theorem c1_fetch5 : fetchPage c1Db 512 5 = .ok c1P5 := by
  rw [fetchPage_middle c1Db
    (c1Page0Raw ++ c1Interior 3 4 ++ c1Interior 5 6 ++ c1Interior 7 8 ++ c1Leaf1)
    c1Leaf2 (c1Leaf3 ++ c1Leaf4)
    512 5
    (by simp only [c1Db, List.append_assoc])
    (by simp [List.length_append, c1Page0Raw_len, c1Interior_len, c1Leaf1_len])
    c1Leaf2_len]
  rfl

theorem c1_fetch6 : fetchPage c1Db 512 6 = .ok c1P6 := by
  rw [fetchPage_middle c1Db
    (c1Page0Raw ++ c1Interior 3 4 ++ c1Interior 5 6 ++ c1Interior 7 8 ++
      c1Leaf1 ++ c1Leaf2)
    c1Leaf3 c1Leaf4
    512 6
    (by simp only [c1Db, List.append_assoc])
    (by simp [List.length_append, c1Page0Raw_len, c1Interior_len, c1Leaf1_len,
      c1Leaf2_len])
    c1Leaf3_len]
  rfl

theorem c1_fetch7 : fetchPage c1Db 512 7 = .ok c1P7 := by
  rw [fetchPage_middle c1Db
    (c1Page0Raw ++ c1Interior 3 4 ++ c1Interior 5 6 ++ c1Interior 7 8 ++
      c1Leaf1 ++ c1Leaf2 ++ c1Leaf3)
    c1Leaf4 []
    512 7
    (by simp only [c1Db, List.append_assoc, List.append_nil])
    (by simp [List.length_append, c1Page0Raw_len, c1Interior_len, c1Leaf1_len,
      c1Leaf2_len, c1Leaf3_len])
    c1Leaf4_len]
  rfl

theorem c1Schema_rep : PageRep (fetchPage c1Db 512) c1Schema :=
  PageRep.leaf 0 c1Page0 (by rfl)

theorem c1Tree_rep : PageRep (fetchPage c1Db 512) c1Tree := by
  have l4 : PageRep (fetchPage c1Db 512) (.leaf 4 c1P4) :=
    PageRep.leaf 4 c1P4 (by rfl)
  have l5 : PageRep (fetchPage c1Db 512) (.leaf 5 c1P5) :=
    PageRep.leaf 5 c1P5 (by rfl)
  have l6  : PageRep (fetchPage c1Db 512) (.leaf 6 c1P6) :=
    PageRep.leaf 6 c1P6 (by rfl)
  have l7 : PageRep (fetchPage c1Db 512) (.leaf 7 c1P7) :=
    PageRep.leaf 7 c1P7 (by rfl)
  have n2 : PageRep (fetchPage c1Db 512)
      (.node 2 c1P2 [.leaf 4 c1P4, .leaf 5 c1P5]) :=
    PageRep.node 2 c1P2 _ (by rfl) (by rfl)
      (forallMemPair c1_fetch4 c1_fetch5) (forallMemPair l4 l5)
  have n3 : PageRep (fetchPage c1Db 512)
      (.node 3 c1P3 [.leaf 6 c1P6, .leaf 7 c1P7]) :=
    PageRep.node 3 c1P3 _ (by rfl) (by rfl)
      (forallMemPair c1_fetch6 c1_fetch7) (forallMemPair l6 l7)
  exact PageRep.node 1 c1P1 _ (by rfl) (by rfl)
    (forallMemPair c1_fetch2 c1_fetch3) (forallMemPair n2 n3)

/-- The parsed schema cell of `c1Db`: table `apples` with root page 2. -/
def c1SchemaCell : Cell :=
  .TableLeaf 23 1
    ⟨5, [.N13AndOdd 23, .N13AndOdd 25, .N13AndOdd 25, .I8],
        [.N13AndOdd tableBytes, .N13AndOdd applesBytes, .N13AndOdd applesBytes,
         .I8 2]⟩
    none

theorem c1_count_rows_witness :
    count_rows applesBytes c1Db 20 = .ok 10 ∧
    count_rows grapesBytes c1Db 20 = .error "Table not found in database" := by
  have hfile0 : c1Db = ([] : List Nat) ++ (c1Page0Raw ++
      (c1Interior 3 4 ++ c1Interior 5 6 ++ c1Interior 7 8 ++
        c1Leaf1 ++ c1Leaf2 ++ c1Leaf3 ++ c1Leaf4)) := by
    simp only [c1Db, List.append_assoc, List.nil_append]
  have hp0 : readExactAt c1Db 512 0 = .ok c1Page0Raw :=
    readExactAt_middle c1Db [] c1Page0Raw _ 512 0 hfile0 (by simp) c1Page0Raw_len
  have htake : c1Db.take 100 = sampleDbHeader 1 := by
    rw [show c1Db = sampleDbHeader 1 ++ (c1Page0Body ++
        (c1Interior 3 4 ++ c1Interior 5 6 ++ c1Interior 7 8 ++
          c1Leaf1 ++ c1Leaf2 ++ c1Leaf3 ++ c1Leaf4)) from by
      simp only [c1Db, c1Page0Raw, List.append_assoc]]
    rw [← sampleDbHeader_len 1, List.take_left]
  have hdrop : c1Page0Raw.drop 100 = c1Page0Body := by
    rw [show c1Page0Raw = sampleDbHeader 1 ++ c1Page0Body from rfl]
    rw [← sampleDbHeader_len 1, List.drop_left]
  have hlen : 100 ≤ c1Db.length := by
    rw [hfile0]
    simp only [List.nil_append, List.length_append, c1Page0Raw_len]
    omega
  have hH : DbHeader.parse (c1Db.take 100) = .ok c1Hdr := by
    rw [htake]
    rfl
  have hroot : BTreePage.parse (c1Page0Raw.drop 100) true = .ok c1Schema.top := by
    rw [hdrop]
    rfl
  constructor
  · have h := c1_count_rows c1Db applesBytes 20 c1Hdr c1Page0Raw c1Schema
      hlen hH hp0 hroot c1Schema_rep (by decide) (by decide)
    have hc : (visitCells c1Schema).find? (isSchemaMatch applesBytes) =
        some c1SchemaCell := by rfl
    exact h.1 c1SchemaCell hc c1Tree c1_fetch1 c1Tree_rep (by decide)
  · have h := c1_count_rows c1Db grapesBytes 20 c1Hdr c1Page0Raw c1Schema
      hlen hH hp0 hroot c1Schema_rep (by decide) (by decide)
    exact h.2 (by rfl)
